import Mathlib

set_option maxRecDepth 20000

/- Shallow embedding of the natural-language search compiler of the Photory
   photo-management backend (server/app/images_routes.py).  The embedding
   follows the Python source line by line: queries are lists of unicode
   characters, the regular expressions of the source are modelled by a small
   backtracking matcher with Python re semantics (ordered alternation,
   greedy and lazy bounded repetition, word boundaries), and the SQLAlchemy
   filter expressions are modelled by an explicit condition tree Cond that
   is evaluated against catalog entries with SQL three-valued logic. -/

namespace Photory

/- Python string primitives.  A Python str is a sequence of unicode scalar
   values, which matches Lean Char lists. -/

abbrev Str := List Char

def toStr (s : String) : Str := s.data

/- Python str.lower for the character sets appearing in this code base:
   ASCII letters are lowered, CJK and punctuation are fixed points.  (The
   full Python lower also folds other cased scripts, which never occur in
   the vocabulary of these regexes.) -/
def pyLowerChar (c : Char) : Char :=
  if 65 ≤ c.toNat && c.toNat ≤ 90 then Char.ofNat (c.toNat + 32) else c

def pyLower (s : Str) : Str := s.map pyLowerChar

/- Python str whitespace (the characters str.split and str.strip treat as
   separators in this code base). -/
def isPySpace (c : Char) : Bool :=
  c == ' ' || c == '\t' || c == '\n' || c == '\r' || c.toNat == 11 || c.toNat == 12

def dropLeading (p : Char → Bool) : Str → Str
  | [] => []
  | c :: rest => if p c then dropLeading p rest else c :: rest

/- Python strip with an explicit character set (str.strip(chars)). -/
def pyStripP (p : Char → Bool) (s : Str) : Str :=
  (dropLeading p (dropLeading p s).reverse).reverse

/- Python str.strip() with no argument: strip whitespace on both sides. -/
def pyStrip (s : Str) : Str := pyStripP isPySpace s

def pyStripChars (cs : Str) (s : Str) : Str := pyStripP (fun c => cs.contains c) s

/- Python substring containment (the in operator on str). -/
def containsSub (s pat : Str) : Bool :=
  match s with
  | [] => pat.isEmpty
  | _ :: rest => pat.isPrefixOf s || containsSub rest pat

def containsAnySub (s : Str) (pats : List Str) : Bool :=
  pats.any (fun p => containsSub s p)

/- Python str.replace(old, new): replace every non-overlapping occurrence,
   scanning left to right.  Fuel-structural so that it reduces in the
   kernel; the fuel is the string length, an upper bound on the number of
   scanning steps. -/
def pyReplaceF (old new : Str) : Nat → Str → Str
  | 0, s => s
  | _ + 1, [] => []
  | f + 1, c :: rest =>
    if old.isPrefixOf (c :: rest) && !old.isEmpty then
      new ++ pyReplaceF old new f (List.drop (old.length - 1) rest)
    else
      c :: pyReplaceF old new f rest

def pyReplace (old new s : Str) : Str := pyReplaceF old new s.length s

/- Python str.split() with no separator: split on whitespace runs and drop
   empty pieces. -/
def splitWsAux : Str → Str → List Str
  | [], acc => if acc.isEmpty then [] else [acc.reverse]
  | c :: rest, acc =>
    if isPySpace c then
      if acc.isEmpty then splitWsAux rest [] else acc.reverse :: splitWsAux rest []
    else splitWsAux rest (c :: acc)

def splitWs (s : Str) : List Str := splitWsAux s []

/- Python datetime.datetime values as produced and compared by the search
   compiler. -/
structure PyDateTime where
  year : Nat
  month : Nat
  day : Nat
  hour : Nat
  minute : Nat
  second : Nat
  microsecond : Nat
  deriving Repr, DecidableEq

def isLeapYear (y : Nat) : Bool :=
  y % 4 == 0 && (y % 100 != 0 || y % 400 == 0)

def daysInMonth (y m : Nat) : Nat :=
  if m == 2 then (if isLeapYear y then 29 else 28)
  else if m == 4 || m == 6 || m == 9 || m == 11 then 30
  else 31

/- Python datetime.datetime(y, m, d, 0, 0, 0): raises ValueError outside
   MINYEAR..MAXYEAR or for an invalid month or day; the raise is modelled
   by the error branch of Except. -/
def mkPyDatetime (y m d : Nat) : Except String PyDateTime :=
  if 1 ≤ y && y ≤ 9999 && 1 ≤ m && m ≤ 12 && 1 ≤ d && d ≤ daysInMonth y m then
    Except.ok ⟨y, m, d, 0, 0, 0, 0⟩
  else
    Except.error "ValueError"

def PyDateTime.key (d : PyDateTime) : List Nat :=
  [d.year, d.month, d.day, d.hour, d.minute, d.second, d.microsecond]

/- Chronological order on datetimes: Python compares them like tuples,
   lexicographically field by field. -/
def natListLt : List Nat → List Nat → Bool
  | [], [] => false
  | [], _ :: _ => true
  | _ :: _, [] => false
  | a :: as, b :: bs => a < b || (a == b && natListLt as bs)

def dtLt (a b : PyDateTime) : Bool := natListLt a.key b.key

def dtLe (a b : PyDateTime) : Bool := !natListLt b.key a.key

/- Python sorted on a two-element list (stable: equal elements keep their
   input order). -/
def sortTwo (a b : PyDateTime) : PyDateTime × PyDateTime :=
  if dtLt b a then (b, a) else (a, b)

/- datetime.replace for day boundaries, as used by the date extractor. -/
def PyDateTime.atDayStart (d : PyDateTime) : PyDateTime :=
  { d with hour := 0, minute := 0, second := 0, microsecond := 0 }

def PyDateTime.atDayEnd (d : PyDateTime) : PyDateTime :=
  { d with hour := 23, minute := 59, second := 59, microsecond := 999999 }

/- A small backtracking matcher with Python re semantics: ordered
   alternation (the leftmost alternative that lets the whole pattern
   succeed wins), greedy and lazy bounded repetition with backtracking,
   optional pieces, capture groups, word boundaries and end anchors.
   re.search scans positions left to right and returns the first position
   with a match.  Character classes are executable predicates. -/

/- Python re word characters (str patterns are unicode: ASCII letters and
   digits, the underscore, and CJK ideographs count as word characters;
   punctuation, quotes and whitespace do not). -/
def isWordChar (c : Char) : Bool :=
  (48 ≤ c.toNat && c.toNat ≤ 57) || (65 ≤ c.toNat && c.toNat ≤ 90) ||
  (97 ≤ c.toNat && c.toNat ≤ 122) || c == '_' ||
  (0x4E00 ≤ c.toNat && c.toNat ≤ 0x9FFF)

inductive Rx where
  | eps
  | cls (p : Char → Bool)
  | lit (s : Str)
  | litCI (s : Str)
  | seq (a b : Rx)
  | alt (a b : Rx)
  | opt (a : Rx)
  | rep (a : Rx) (lo hi : Nat)
  | repNG (a : Rx) (lo hi : Nat)
  | star (a : Rx)
  | group (n : Nat) (a : Rx)
  | wordB
  | eosR

/- Matcher state: the previous input character (for word boundaries), the
   remaining input, and the captures recorded so far (most recent first). -/
structure MSt where
  prev : Option Char
  rest : Str
  caps : List (Nat × Str)

def isWordBoundary (prev : Option Char) (rest : Str) : Bool :=
  let a := match prev with | none => false | some c => isWordChar c
  let b := match rest with | [] => false | c :: _ => isWordChar c
  a != b

/- Match a literal, consuming input characters one by one (case sensitive
   or ASCII case insensitive). -/
def mtchLit (ci : Bool) : Str → MSt → Option MSt
  | [], st => some st
  | p :: ps, st =>
    match st.rest with
    | [] => none
    | c :: cs =>
      if (if ci then pyLowerChar p == pyLowerChar c else p == c) then
        mtchLit ci ps ⟨some c, cs, st.caps⟩
      else none

def capTake (pre post : Str) : Str := pre.take (pre.length - post.length)

/- The continuation-passing backtracking matcher.  The fuel only bounds the
   depth of nested matcher calls (rxFuel below is a safe overapproximation);
   it never changes the result on the patterns of this code base. -/
def mtch : Nat → Rx → MSt → (MSt → Option MSt) → Option MSt
  | 0, _, _, _ => none
  | f + 1, r, st, k =>
    match r with
    | .eps => k st
    | .cls p =>
      match st.rest with
      | [] => none
      | c :: rest => if p c then k ⟨some c, rest, st.caps⟩ else none
    | .lit s => match mtchLit false s st with | some st2 => k st2 | none => none
    | .litCI s => match mtchLit true s st with | some st2 => k st2 | none => none
    | .seq a b => mtch f a st (fun st2 => mtch f b st2 k)
    | .alt a b =>
      match mtch f a st k with
      | some res => some res
      | none => mtch f b st k
    | .opt a =>
      match mtch f a st k with
      | some res => some res
      | none => k st
    | .rep a lo hi =>
      if hi == 0 then (if lo == 0 then k st else none)
      else
        match mtch f a st (fun st2 => mtch f (.rep a (lo - 1) (hi - 1)) st2 k) with
        | some res => some res
        | none => if lo == 0 then k st else none
    | .repNG a lo hi =>
      if 0 < lo then mtch f a st (fun st2 => mtch f (.repNG a (lo - 1) (hi - 1)) st2 k)
      else
        match k st with
        | some res => some res
        | none =>
          if hi == 0 then none
          else mtch f a st (fun st2 => mtch f (.repNG a 0 (hi - 1)) st2 k)
    | .star a => mtch f (.rep a 0 st.rest.length) st k
    | .group n a =>
      mtch f a st (fun st2 => k ⟨st2.prev, st2.rest, (n, capTake st.rest st2.rest) :: st2.caps⟩)
    | .wordB => if isWordBoundary st.prev st.rest then k st else none
    | .eosR => if st.rest.isEmpty || st.rest == ['\n'] then k st else none

def rxSize : Rx → Nat
  | .seq a b => rxSize a + rxSize b + 1
  | .alt a b => rxSize a + rxSize b + 1
  | .opt a => rxSize a + 1
  | .star a => rxSize a + 3
  | .group _ a => rxSize a + 1
  | .rep a _ hi => (rxSize a + 2) * (hi + 1) + 1
  | .repNG a _ hi => (rxSize a + 2) * (hi + 1) + 1
  | _ => 1

def rxFuel (r : Rx) (s : Str) : Nat := (rxSize r + 4) * (s.length + 8) + 64

/- The result of a successful search: the text before the match, the
   matched text, the captures, and the text after the match. -/
structure MRes where
  pre : Str
  mat : Str
  caps : List (Nat × Str)
  rest : Str

def capGet (caps : List (Nat × Str)) (n : Nat) : Option Str :=
  match caps.find? (fun e => e.1 == n) with
  | some e => some e.2
  | none => none

/- Try the pattern at the current position. -/
def tryAt (r : Rx) (prev : Option Char) (s : Str) : Option (Str × List (Nat × Str) × Str) :=
  match mtch (rxFuel r s) r ⟨prev, s, []⟩ some with
  | some st => some (capTake s st.rest, st.caps, st.rest)
  | none => none

def searchAux (r : Rx) : Option Char → Str → Str → Option MRes
  | prev, pre, [] =>
    match tryAt r prev [] with
    | some (m, caps, rest) => some ⟨pre.reverse, m, caps, rest⟩
    | none => none
  | prev, pre, c :: rest =>
    match tryAt r prev (c :: rest) with
    | some (m, caps, rest2) => some ⟨pre.reverse, m, caps, rest2⟩
    | none => searchAux r (some c) (c :: pre) rest

/- re.search: scan positions left to right, return the first match. -/
def reSearch (r : Rx) (s : Str) : Option MRes := searchAux r none [] s

def lastCharOf (s : Str) (dflt : Option Char) : Option Char :=
  match s.getLast? with
  | some c => some c
  | none => dflt

/- re.findall (no groups used through this entry point): all
   non-overlapping matches, scanning left to right. -/
def reFindAllAux (r : Rx) : Nat → Option Char → Str → List Str
  | 0, _, _ => []
  | f + 1, prev, s =>
    match searchAux r prev [] s with
    | none => []
    | some res =>
      if res.mat.isEmpty then
        match res.rest with
        | [] => [res.mat]
        | c :: rest2 => res.mat :: reFindAllAux r f (some c) rest2
      else
        res.mat :: reFindAllAux r f (lastCharOf res.mat prev) res.rest

def reFindAll (r : Rx) (s : Str) : List Str := reFindAllAux r (s.length + 1) none s

/- re.sub with a plain replacement string (no backreferences).  All the
   patterns fed to this function match at least one character. -/
def reSubAux (r : Rx) (repl : Str) : Nat → Option Char → Str → Str
  | 0, _, s => s
  | f + 1, prev, s =>
    match searchAux r prev [] s with
    | none => s
    | some res =>
      if res.mat.isEmpty then
        res.pre ++ repl ++
          (match res.rest with
           | [] => []
           | c :: rest2 => c :: reSubAux r repl f (some c) rest2)
      else
        res.pre ++ repl ++ reSubAux r repl f (lastCharOf res.mat prev) res.rest

def reSub (r : Rx) (repl : Str) (s : Str) : Str := reSubAux r repl (s.length + 1) none s

/- re.split on a pattern without capturing groups. -/
def reSplitAux (r : Rx) : Nat → Option Char → Str → List Str
  | 0, _, s => [s]
  | f + 1, prev, s =>
    match searchAux r prev [] s with
    | none => [s]
    | some res =>
      if res.mat.isEmpty then
        [s]
      else
        res.pre :: reSplitAux r f (lastCharOf res.mat prev) res.rest

def reSplit (r : Rx) (s : Str) : List Str := reSplitAux r (s.length + 1) none s

/- Pattern building helpers. -/
def rStr (s : String) : Rx := .lit s.data

def rStrCI (s : String) : Rx := .litCI s.data

def rSeq (rs : List Rx) : Rx := rs.foldr .seq .eps

/- Ordered alternation over a list of branches (first listed wins). -/
def rAlts : List Rx → Rx
  | [] => .eps
  | [r] => r
  | r :: rs => .alt r (rAlts rs)

def rLits (ls : List String) : Rx := rAlts (ls.map rStr)

def rLitsCI (ls : List String) : Rx := rAlts (ls.map rStrCI)

/- Character class helpers. -/
def ccDigit (c : Char) : Bool := 48 ≤ c.toNat && c.toNat ≤ 57

/- The explicit class u4e00-u9fa5 written in the source patterns. -/
def ccCJK (c : Char) : Bool := 0x4E00 ≤ c.toNat && c.toNat ≤ 0x9FA5

def ccSpace (c : Char) : Bool := isPySpace c

def ccOf (s : String) : Char → Bool := fun c => s.data.contains c

def ccAsciiAlpha (c : Char) : Bool :=
  (65 ≤ c.toNat && c.toNat ≤ 90) || (97 ≤ c.toNat && c.toNat ≤ 122)

def rDigits (lo hi : Nat) : Rx := .rep (.cls ccDigit) lo hi

def rSpaceStar : Rx := .star (.cls ccSpace)

def rPlus (r : Rx) : Rx := .seq r (.star r)

/- Python dot: any character except a newline. -/
def ccDot (c : Char) : Bool := c != '\n'

def apos : Char := Char.ofNat 39

/- int() on the decimal digit runs produced by the regex captures. -/
def pyInt (s : Str) : Option Nat :=
  if s.isEmpty || !(s.all ccDigit) then none
  else some (s.foldl (fun n c => n * 10 + (c.toNat - 48)) 0)

def pyStartsWith (p s : Str) : Bool := p.isPrefixOf s

def pyEndsWith (p s : Str) : Bool := p.reverse.isPrefixOf s.reverse

/- The natural-language search compiler of server/app/images_routes.py. -/

/- images_routes._normalize_query_text: canonicalize unicode dash variants
   to the ASCII hyphen. -/
def normalizeQueryText (text : Str) : Str :=
  pyReplace (toStr "−") (toStr "-")
    (pyReplace (toStr "‑") (toStr "-")
      (pyReplace (toStr "—") (toStr "-")
        (pyReplace (toStr "–") (toStr "-")
          (pyReplace (toStr "－") (toStr "-") text))))

/- The date token pattern of _ai_parse_date_range and friends. -/
def dateTokenRx : Rx :=
  rSeq [rDigits 4 4, .cls (ccOf "-./年"), rDigits 1 2, .cls (ccOf "-./月"), rDigits 1 2]

/- The inner _to_dt of _ai_parse_date_range: normalize the separators,
   split, parse the components; int() and datetime() raising inside the
   try block is modelled by the none branches being caught. -/
def toDt (token : Str) : Option PyDateTime :=
  let cleaned := reSub (.cls (ccOf "年月/.")) (toStr "-") token
  let cleaned := pyReplace (toStr "日") [] cleaned
  let cleaned := pyReplace (toStr "号") [] cleaned
  let parts := (cleaned.splitOn '-').filter (fun p => !p.isEmpty)
  if parts.length < 3 then none
  else
    match parts with
    | p0 :: p1 :: p2 :: _ =>
      match pyInt p0, pyInt p1, pyInt p2 with
      | some y, some mm, some dd => (mkPyDatetime y mm dd).toOption
      | _, _, _ => none
    | _ => none

/- The field selection of _ai_parse_date_range: default created, switch
   to taken on capture words, overridden back by upload words. -/
def dateFieldOf (text : Str) : String :=
  let lowered := pyLower text
  let field :=
    if containsAnySub text [toStr "拍摄", toStr "摄于"] ||
        containsSub lowered (toStr "taken") || containsSub lowered (toStr "capture") then
      "taken"
    else "created"
  if containsSub text (toStr "上传") || containsSub lowered (toStr "upload") then "created"
  else field

/- images_routes._ai_parse_date_range. -/
def aiParseDateRange (text0 : Str) : Option PyDateTime × Option PyDateTime × String :=
  let text := normalizeQueryText text0
  let field := dateFieldOf text
  let tokens := reFindAll dateTokenRx text
  let dates := tokens.filterMap toDt
  match dates with
  | d1 :: d2 :: _ =>
    let (a, b) := sortTwo d1 d2
    (some a.atDayStart, some b.atDayEnd, field)
  | [d] => (some d.atDayStart, some d.atDayEnd, field)
  | [] => (none, none, field)

/- Size parsing.  unit_map of _ai_parse_size. -/
def sizeUnitFactor (unit : Str) : Option Nat :=
  let u := pyLower unit
  if u = toStr "kb" then some 1024
  else if u = toStr "k" then some 1024
  else if u = toStr "mb" then some (1024 * 1024)
  else if u = toStr "m" then some (1024 * 1024)
  else if u = toStr "gb" then some (1024 * 1024 * 1024)
  else if u = toStr "g" then some (1024 * 1024 * 1024)
  else if u = toStr "兆" then some (1024 * 1024)
  else none

/- The value of int(float(num) * factor) for a nonnegative decimal
   numeral num whose float product stays finite: the integer part of
   num * factor.  (Python computes this through a float; for the short
   numerals of real queries the two agree.)  This is only the finite
   restriction: int(float(num) * factor) raises OverflowError when the
   product overflows the double range, which pyIntFloatMul below keeps. -/
def numTimesFactor (num : Str) (factor : Nat) : Option Nat :=
  match num.splitOn '.' with
  | [ip] => (pyInt ip).map (· * factor)
  | [ip, fp] =>
    match pyInt ip, pyInt fp with
    | some i, some f => some (i * factor + f * factor / 10 ^ fp.length)
    | _, _ => none
  | _ => none

/- The inner _to_bytes of _ai_parse_size. -/
def toBytes (num : Str) (unit : Option Str) : Option Nat :=
  match unit with
  | none => none
  | some u =>
    match sizeUnitFactor u with
    | none => none
    | some factor => numTimesFactor num factor

/- The largest finite IEEE-754 double, (2^53 - 1) * 2^971, as an exact
   integer.  A float computation whose exact result exceeds it overflows
   to inf, and int(inf) raises OverflowError. -/
def dblMaxNum : Nat := (2 ^ 53 - 1) * 2 ^ 971

/- int(float(num) * factor) with its error path kept: when the numeral
   times factor exceeds the double range, float(num) * factor is inf and
   int raises OverflowError.  The overflow test compares the exact decimal
   value with the bound (the rounding of float(num) can carry a value
   lying within one ulp of the threshold across it; every numeral of at
   most 305 digits with these factors is finite and every numeral of 310
   or more digits overflows).  A num that is no decimal numeral would make
   float raise ValueError, unreachable from the digit-only captures. -/
def pyIntFloatMul (num : Str) (factor : Nat) : Except String Nat :=
  match num.splitOn '.' with
  | [ip] =>
    match pyInt ip with
    | some i =>
      if dblMaxNum < i * factor then Except.error "OverflowError"
      else Except.ok (i * factor)
    | none => Except.error "ValueError"
  | [ip, fp] =>
    match pyInt ip, pyInt fp with
    | some i, some f =>
      if dblMaxNum * 10 ^ fp.length < (i * 10 ^ fp.length + f) * factor then
        Except.error "OverflowError"
      else Except.ok (i * factor + f * factor / 10 ^ fp.length)
    | _, _ => Except.error "ValueError"
  | _ => Except.error "ValueError"

/- The inner _to_bytes of _ai_parse_size with the OverflowError raised by
   int(float(num) * factor) propagating: _ai_parse_size installs no
   try/except around its calls. -/
def toBytesE (num : Str) (unit : Option Str) : Except String (Option Nat) :=
  match unit with
  | none => Except.ok none
  | some u =>
    match sizeUnitFactor u with
    | none => Except.ok none
    | some factor =>
      match pyIntFloatMul num factor with
      | Except.ok v => Except.ok (some v)
      | Except.error e => Except.error e

def rxNum : Rx := .seq (rPlus (.cls ccDigit)) (.opt (rSeq [rStr ".", rPlus (.cls ccDigit)]))

def rxUnit : Rx := rLitsCI ["k", "kb", "m", "mb", "g", "gb", "兆"]

/- The range pattern of _ai_parse_size (IGNORECASE). -/
def sizeRangeRx : Rx :=
  rSeq [.group 1 rxNum, rSpaceStar, .opt (.group 2 rxUnit), rSpaceStar,
    rLits ["-", "~", "到", "至", "—", "–"], rSpaceStar,
    .group 3 rxNum, rSpaceStar, .opt (.group 4 rxUnit)]

/- The single-value pattern of _ai_parse_size (IGNORECASE). -/
def sizeSingleRx : Rx :=
  rSeq [.group 1 rxNum, rSpaceStar, .group 2 rxUnit, rSpaceStar, .opt (rStrCI "b")]

/- images_routes._ai_parse_size. -/
def aiParseSize (text0 : Str) : Option Nat × Option Nat :=
  if text0.isEmpty then (none, none)
  else
    let text := normalizeQueryText text0
    let textWoDates := reSub dateTokenRx (toStr " ") text
    match reSearch sizeRangeRx textWoDates with
    | some r =>
      let unitLeft := capGet r.caps 2
      let unitRight := capGet r.caps 4
      if unitLeft.isNone && unitRight.isNone then (none, none)
      else
        match toBytes ((capGet r.caps 1).getD []) (unitLeft.orElse (fun _ => unitRight)),
              toBytes ((capGet r.caps 3).getD []) (unitRight.orElse (fun _ => unitLeft)) with
        | some minB, some maxB =>
          if minB > maxB then (some maxB, some minB) else (some minB, some maxB)
        | _, _ => (none, none)
    | none =>
      match reSearch sizeSingleRx textWoDates with
      | none => (none, none)
      | some m =>
        match toBytes ((capGet m.caps 1).getD []) (capGet m.caps 2) with
        | none => (none, none)
        | some v =>
          if containsAnySub text ([ "以上", "大于", ">", "不少于", "至少", "greater"].map toStr) then
            (some v, none)
          else if containsAnySub text (["以下", "小于", "<", "不超过", "最多", "不大于", "at most"].map toStr) then
            (none, some v)
          else (some v, some v)

/- images_routes._ai_parse_size with the exception channel made explicit:
   Except.error e is the call raising e to its caller (nothing in
   _ai_parse_size catches the OverflowError of _to_bytes).  aiParseSize
   above is its non-raising restriction: aiParseSizeE_ok below shows the
   two agree on every input on which the code returns normally. -/
def aiParseSizeE (text0 : Str) : Except String (Option Nat × Option Nat) :=
  if text0.isEmpty then Except.ok (none, none)
  else
    let text := normalizeQueryText text0
    let textWoDates := reSub dateTokenRx (toStr " ") text
    match reSearch sizeRangeRx textWoDates with
    | some r =>
      let unitLeft := capGet r.caps 2
      let unitRight := capGet r.caps 4
      if unitLeft.isNone && unitRight.isNone then Except.ok (none, none)
      else
        match toBytesE ((capGet r.caps 1).getD []) (unitLeft.orElse (fun _ => unitRight)) with
        | Except.error e => Except.error e
        | Except.ok mn =>
          match toBytesE ((capGet r.caps 3).getD []) (unitRight.orElse (fun _ => unitLeft)) with
          | Except.error e => Except.error e
          | Except.ok mx =>
            match mn, mx with
            | some minB, some maxB =>
              Except.ok (if minB > maxB then (some maxB, some minB) else (some minB, some maxB))
            | _, _ => Except.ok (none, none)
    | none =>
      match reSearch sizeSingleRx textWoDates with
      | none => Except.ok (none, none)
      | some m =>
        match toBytesE ((capGet m.caps 1).getD []) (capGet m.caps 2) with
        | Except.error e => Except.error e
        | Except.ok none => Except.ok (none, none)
        | Except.ok (some v) =>
          if containsAnySub text ([ "以上", "大于", ">", "不少于", "至少", "greater"].map toStr) then
            Except.ok (some v, none)
          else if containsAnySub text (["以下", "小于", "<", "不超过", "最多", "不大于", "at most"].map toStr) then
            Except.ok (none, some v)
          else Except.ok (some v, some v)

/- Resolution parsing. -/
structure ResInfo where
  pixels : Option Nat
  width : Option Nat
  height : Option Nat
  deriving Repr, DecidableEq

def rxResWH : Rx :=
  rSeq [.group 1 (rDigits 3 5), rSpaceStar, .cls (ccOf "xX×*"), rSpaceStar, .group 2 (rDigits 3 5)]

def rxResPx : Rx :=
  rSeq [.group 1 (rDigits 3 8), rSpaceStar, .alt (rStrCI "像素") (rStrCI "px")]

def rxResP : Rx := rSeq [.group 1 (rDigits 3 4), rStr "p"]

/- images_routes._ai_parse_resolution.  The captured digit runs always
   parse, so getD 0 is never the default. -/
def aiParseResolution (text : Str) : ResInfo :=
  match reSearch rxResWH text with
  | some m =>
    let w := (pyInt ((capGet m.caps 1).getD [])).getD 0
    let h := (pyInt ((capGet m.caps 2).getD [])).getD 0
    ⟨some (w * h), some w, some h⟩
  | none =>
    match reSearch rxResPx text with
    | some m =>
      let px := (pyInt ((capGet m.caps 1).getD [])).getD 0
      ⟨some px, none, none⟩
    | none =>
      let low := pyLower text
      if containsSub low (toStr "4k") then ⟨some (3840 * 2160), some 3840, some 2160⟩
      else if containsSub low (toStr "2k") then ⟨some (2560 * 1440), some 2560, some 1440⟩
      else
        match reSearch rxResP low with
        | some m =>
          let h := (pyInt ((capGet m.caps 1).getD [])).getD 0
          let w := 16 * h / 9
          ⟨some (w * h), some w, some h⟩
        | none => ⟨none, none, none⟩

/- Album extraction (_ai_parse_album).  The six quote characters of the
   source patterns. -/
def quoteChars : Str := ['“', '”', '"', apos, '‘', '’']

def openQuotes : Str := ['“', '"', apos, '‘']

def closeQuotes : Str := ['”', '"', apos, '’']

/- The inner _clean of _ai_parse_album: drop quote characters, drop one
   trailing album word, truncate at a possessive particle, strip the
   listed punctuation. -/
def cleanAlbum (name : Str) : Str :=
  let c := reSub (.cls (fun ch => quoteChars.contains ch)) [] name
  let c := reSub (rSeq [rLits ["相册", "专辑", "文件夹"], .eosR]) [] c
  let c := reSub (rSeq [rPlus (.cls (ccOf "的之")), .star (.cls ccDot), .eosR]) [] c
  pyStripChars (toStr " ，。,:： ") c

/- The name character class u4e00-u9fa5 A-Za-z 0-9 _ - space. -/
def ccAlbumName (c : Char) : Bool :=
  ccCJK c || ccAsciiAlpha c || ccDigit c || c == '_' || c == '-' || c == ' '

/- The same class without the space. -/
def ccAlbumNameNoSp (c : Char) : Bool :=
  ccCJK c || ccAsciiAlpha c || ccDigit c || c == '_' || c == '-'

/- The class of the english album pattern: word chars, CJK, dash, space. -/
def ccWordCJKDashSp (c : Char) : Bool :=
  isWordChar c || ccCJK c || c == '-' || c == ' '

def rxAlbumNamed : Rx :=
  rSeq [rLits ["名为", "叫做", "叫", "名称为", "标题为"], rSpaceStar,
    .opt (.cls (fun c => openQuotes.contains c)),
    .group 1 (.rep (.cls ccAlbumName) 1 40),
    .opt (.cls (fun c => closeQuotes.contains c)), rSpaceStar, .opt (rStr "的"),
    rLits ["相册", "专辑", "文件夹"]]

def rxAlbumM0 : Rx :=
  rSeq [rLits ["相册名称为", "相册名为", "相册叫", "相册标题为", "相册名", "相册叫做",
      "专辑为", "专辑叫做", "文件夹为"],
    .opt (.cls (fun c => openQuotes.contains c)),
    .group 1 (.rep (.cls ccAlbumName) 1 40),
    .opt (.cls (fun c => closeQuotes.contains c))]

def rxQuoteCn : Rx := rSeq [rStr "“", .group 1 (rPlus (.cls (fun c => c != '”'))), rStr "”"]

def rxQuoteAscii : Rx := rSeq [rStr "\"", .group 1 (rPlus (.cls (fun c => c != '"'))), rStr "\""]

def rxQuoteApos : Rx :=
  rSeq [.lit [apos], .group 1 (rPlus (.cls (fun c => c != apos))), .lit [apos]]

def rxQuoteCnSingle : Rx := rSeq [rStr "‘", .group 1 (rPlus (.cls (fun c => c != '’'))), rStr "’"]

def rxAlbumM2 : Rx :=
  rSeq [.opt (rStr "在"), .group 1 (.rep (.cls ccAlbumNameNoSp) 1 30),
    .opt (.cls (ccOf "的之")), rLits ["相册", "专辑", "文件夹"]]

def ccColonSp (c : Char) : Bool := c == ':' || c == '：' || ccSpace c

def rxAlbumM4 : Rx :=
  rSeq [rStrCI "album", .star (.cls ccColonSp), .group 1 (.rep (.cls ccWordCJKDashSp) 2 40)]

/- images_routes._ai_parse_album; the result can be the empty string,
   which callers treat as no album through truthiness. -/
def aiParseAlbum (text : Str) : Option Str :=
  match reSearch rxAlbumNamed text with
  | some m => some (cleanAlbum ((capGet m.caps 1).getD []))
  | none =>
  match reSearch rxAlbumM0 text with
  | some m => some (cleanAlbum ((capGet m.caps 1).getD []))
  | none =>
  match reSearch rxQuoteCn text with
  | some m => some (cleanAlbum ((capGet m.caps 1).getD []))
  | none =>
  match reSearch rxQuoteAscii text with
  | some m => some (cleanAlbum ((capGet m.caps 1).getD []))
  | none =>
  match reSearch rxQuoteApos text with
  | some m => some (cleanAlbum ((capGet m.caps 1).getD []))
  | none =>
  match reSearch rxQuoteCnSingle text with
  | some m => some (cleanAlbum ((capGet m.caps 1).getD []))
  | none =>
  match reSearch rxAlbumM2 text with
  | some m => some (cleanAlbum ((capGet m.caps 1).getD []))
  | none =>
  match reSearch rxAlbumM4 text with
  | some m => some (cleanAlbum ((capGet m.caps 1).getD []))
  | none => none

/- Python truthiness of an optional string. -/
def optTruthy (o : Option Str) : Bool :=
  match o with
  | some s => !s.isEmpty
  | none => false

/- Camera extraction (_ai_parse_camera_keyword). -/
def rxCam1 : Rx :=
  rSeq [rLits ["相机", "机型"], .star (.cls (fun c => !(isWordChar c || ccCJK c))),
    .group 1 (.rep (.cls ccWordCJKDashSp) 2 40)]

def rxCam2 : Rx :=
  rSeq [rStr "镜头", .star (.cls (fun c => !(isWordChar c || ccCJK c))),
    .group 1 (.rep (.cls ccWordCJKDashSp) 2 40)]

def rxCam3 : Rx :=
  rSeq [rLits ["用", "使用"], .group 1 (.repNG (.cls ccWordCJKDashSp) 2 40),
    rLits ["拍摄", "拍的", "拍照", "拍"]]

/- images_routes._ai_parse_camera_keyword. -/
def aiParseCameraKeyword (text : Str) : Option Str :=
  if text.isEmpty then none
  else
    let viaCamWord :=
      if containsSub text (toStr "相机") || containsSub text (toStr "镜头") ||
          containsSub text (toStr "机型") then
        match (reSearch rxCam1 text).orElse (fun _ => reSearch rxCam2 text) with
        | some m => some (pyStrip ((capGet m.caps 1).getD []))
        | none => none
      else none
    match viaCamWord with
    | some g => if g.isEmpty then none else some g
    | none =>
      match reSearch rxCam3 text with
      | some m =>
        let g := pyStrip ((capGet m.caps 1).getD [])
        if g.isEmpty then none else some g
      | none => none

/- images_routes._ai_detect_logic_mode.  re.search on an alternation of
   literals is exactly a substring test over the alternatives. -/
def aiDetectLogicMode (text : Str) : String :=
  if text.isEmpty then "auto"
  else if containsAnySub text (["或者是", "或者", "或是", "或则", "还是", "或"].map toStr) then "or"
  else if containsAnySub text
      (["并且", "而且", "同时", "以及", "又", "并且还", "并且同时"].map toStr) then "and"
  else "auto"

/- Noise classification (_is_noise_keyword).  The structured vocabulary
   checked by substring containment. -/
def noiseSubstrList : List String :=
  ["相册", "专辑", "文件夹", "上传", "拍摄", "摄于", "相机", "镜头", "机型",
   "分辨率", "像素", "大小", "容量", "文件大小", "小于", "大于", "以上", "以下",
   "不超过", "不少于", "至少", "最多", "名为", "叫做", "名称为", "标题为",
   "并且", "而且", "同时", "以及", "或者"]

/- The anchored noise patterns: re.search with a fully anchored
   alternation of literals is membership in the alternative set. -/
def noiseExactLists : List (List String) :=
  [["所有", "全部", "全部的", "所有的", "都", "全部都", "所有都"],
   ["并且", "而且", "同时", "以及", "且", "和", "或者", "或是", "或则", "还是", "或"],
   ["上传", "上传于", "上传的", "拍摄", "拍摄于", "拍的", "摄于"],
   ["相册", "专辑", "文件夹", "相机", "镜头", "机型"],
   ["分辨率", "像素", "大小", "容量", "文件大小"],
   ["小于", "大于", "以上", "以下", "不超过", "不少于", "至少", "最多"],
   ["之间", "区间", "范围", "以内"],
   ["图片", "照片", "相片"],
   ["帮我", "为我", "我要", "我想", "请", "麻烦", "帮忙", "查找", "搜索", "检索",
    "找", "找出", "列出", "显示"],
   ["相关", "相应"]]

/- The last noise pattern: 上传 then any characters (the dot does not
   cross a newline) then one of the photo words, anchored on both sides. -/
def noiseUploadPhoto (low : Str) : Bool :=
  (tryAt (rSeq [rStr "上传", .star (.cls ccDot), rLits ["图片", "照片", "相片"], .eosR])
    none low).isSome

/- images_routes._is_noise_keyword. -/
def isNoiseKeyword (token : Str) : Bool :=
  if token.isEmpty then true
  else
    let low := pyStrip (pyLower token)
    if low = toStr "and" || low = toStr "or" then true
    else if low = toStr "album" then true
    else if (["之间", "区间", "范围", "以内"].map toStr).contains low then true
    else if (["并且", "而且", "同时", "以及", "且", "和", "或者", "或是", "或则",
        "还是", "或"].map toStr).contains low then true
    else if noiseSubstrList.any (fun k => containsSub low (toStr k)) then true
    else if noiseExactLists.any (fun pats => (pats.map toStr).contains low) then true
    else if noiseUploadPhoto low then true
    else false

/- Keyword group extraction (_nl_extract_keyword_groups).

   The punctuation pattern of the source is written with doubled
   backslashes inside a raw string, so the character class ends at the
   first escaped bracket: it requires a class character followed by the
   literal text braces 《》<> and then closing brackets, and is a no-op on
   real queries.  We embed it exactly. -/
def ccPunctCls (c : Char) : Bool := ccOf "，。,.；;:：!！?？()（）\\[" c

def punctSub (s : Str) : Str :=
  reSub (rSeq [.cls ccPunctCls, rStr "\x7b\x7d《》<>", rPlus (rStr "]")]) (toStr " ") s

/- The OR connective pattern of the source is also written with doubled
   backslashes: its alternatives are the five chinese words, the literal
   text backslash-b-o-r-backslash-b, a literal backslash, and - because
   the trailing escaped bar reads as a literal backslash followed by the
   alternation bar - an empty branch.  re.sub with an empty-matching
   pattern inserts the replacement at every position that no other
   alternative claims. -/
def orAltStrs : List Str :=
  [toStr "或者是", toStr "或者", toStr "或是", toStr "或则", toStr "还是",
   ['\\', 'b', 'o', 'r', '\\', 'b'], ['\\']]

/- The AND connective pattern has the same escaping accident in its
   b-a-n-d branch but no empty branch. -/
def andAltStrs : List Str :=
  [toStr "并且", toStr "而且", toStr "同时", toStr "以及", toStr "和", toStr "且",
   ['\\', 'b', 'a', 'n', 'd', '\\', 'b'], toStr "&"]

def hasPrefixCI : Str → Str → Bool
  | [], _ => true
  | _ :: _, [] => false
  | p :: ps, c :: cs => pyLowerChar p == pyLowerChar c && hasPrefixCI ps cs

def findConnAlt (alts : List Str) (s : Str) : Option Str :=
  alts.find? (fun a => hasPrefixCI a s)

def orMarkerStr : Str := toStr " __OR__ "

def andMarkerStr : Str := toStr " __AND__ "

/- The OR substitution: at each position the first matching alternative is
   replaced; where none matches, the empty branch matches and the marker
   is inserted before the character (and once more at the end of the
   string), following Python re.sub semantics for empty matches. -/
def orSubF : Nat → Str → Str
  | 0, s => s
  | _ + 1, [] => orMarkerStr
  | f + 1, c :: rest =>
    match findConnAlt orAltStrs (c :: rest) with
    | some a => orMarkerStr ++ orSubF f (List.drop (a.length - 1) rest)
    | none => orMarkerStr ++ c :: orSubF f rest

def orSub (s : Str) : Str := orSubF (s.length + 1) s

def andSubF : Nat → Str → Str
  | 0, s => s
  | _ + 1, [] => []
  | f + 1, c :: rest =>
    match findConnAlt andAltStrs (c :: rest) with
    | some a => andMarkerStr ++ andSubF f (List.drop (a.length - 1) rest)
    | none => c :: andSubF f rest

def andSub (s : Str) : Str := andSubF (s.length + 1) s

/- raw_tokens of _nl_extract_keyword_groups: whitespace split of the
   substituted text (the pieces contain no whitespace, so the extra
   str.strip of the source is the identity on them). -/
def nlTokens (text : Str) : List Str := splitWs (andSub (orSub (punctSub text)))

def nlStopTokens : List String :=
  ["__OR__", "__AND__", "上传", "拍摄", "摄于", "相册", "专辑", "文件夹", "相机",
   "镜头", "机型", "分辨率", "像素", "大小", "容量", "文件大小", "小于", "大于",
   "以上", "以下", "不超过", "不少于", "至少", "最多", "照片", "图片", "帮我",
   "我要", "找", "搜索", "检索"]

/- The structured-shape patterns of _looks_structured_token.  All but the
   date pattern carry the doubled-backslash accident, so they demand
   literal backslash characters and are dead on real tokens; they are
   embedded exactly as written. -/
def rxBrokenSize : Rx := rSeq [rxNum, rSpaceStar, rxUnit, rStr "\\", rStrCI "b"]

def rxBrokenWH : Rx :=
  rSeq [rDigits 3 5, rStr "\\", .star (rStr "s"), .cls (ccOf "xX×*"),
    rStr "\\", .star (rStr "s"), rStr "\\", .rep (rStr "d") 3 5]

def rxBrokenPx : Rx :=
  rSeq [rDigits 3 8, rStr "\\", .star (rStrCI "s"), rLitsCI ["像素", "px"],
    rStr "\\", rStrCI "b"]

def rxBrokenP : Rx :=
  rSeq [rStr "\\", rStr "b", rStr "\\", .rep (rStr "d") 3 4, rStr "p", rStr "\\", rStr "b"]

def looksStructuredToken (tok : Str) : Bool :=
  if tok.isEmpty then true
  else
    let low := pyLower tok
    if (nlStopTokens.map toStr).contains tok || (nlStopTokens.map toStr).contains low then true
    else if (reSearch dateTokenRx tok).isSome then true
    else if (reSearch rxBrokenSize tok).isSome then true
    else if (reSearch rxBrokenWH tok).isSome then true
    else if (reSearch rxBrokenPx tok).isSome then true
    else if (reSearch rxBrokenP low).isSome then true
    else false

/- The exclusion set is normalized by stripping and dropping empties. -/
def exclNorm (excl : List Str) : List Str :=
  (excl.map pyStrip).filter (fun t => !t.isEmpty)

/- The token walk of _nl_extract_keyword_groups: or_groups is kept as the
   closed groups plus the open last group. -/
def nlWalk (ex : List Str) : List Str → Bool → List (List Str) → List Str →
    Bool × List (List Str)
  | [], andUsed, done, cur => (andUsed, done ++ [cur])
  | tok :: rest, andUsed, done, cur =>
    if tok = toStr "__OR__" then
      if !cur.isEmpty then nlWalk ex rest andUsed (done ++ [cur]) []
      else nlWalk ex rest andUsed done cur
    else if tok = toStr "__AND__" then nlWalk ex rest true done cur
    else
      let tok2 := pyStripChars quoteChars tok
      let tok2 := if pyStartsWith (toStr "#") tok2 then tok2.drop 1 else tok2
      let tok2 := pyStrip tok2
      if tok2.isEmpty then nlWalk ex rest andUsed done cur
      else if ex.contains tok2 then nlWalk ex rest andUsed done cur
      else if looksStructuredToken tok2 then nlWalk ex rest andUsed done cur
      else nlWalk ex rest andUsed done (cur ++ [tok2])

/- Deduplicate one group keeping order and dropping empty terms. -/
def uniqNonempty (g : List Str) : List Str :=
  g.foldl (fun u term => if !term.isEmpty && !u.contains term then u ++ [term] else u) []

def cleanupGroups (gs : List (List Str)) : List (List Str) :=
  (gs.map uniqNonempty).filter (fun g => !g.isEmpty)

/- The flattening pass used when no explicit AND marker was seen. -/
def flatTerms (cleaned : List (List Str)) : List Str :=
  cleaned.foldl
    (fun flat g =>
      g.foldl (fun fl term => if !term.isEmpty && !fl.contains term then fl ++ [term] else fl)
        flat)
    []

/- The groups as walked and cleaned, before the flattening decision
   (first component: whether an explicit AND marker was encountered). -/
def nlCleanedGroups (text : Str) (excl : List Str) : Bool × List (List Str) :=
  if (nlTokens text).isEmpty then (false, [])
  else
    ((nlWalk (exclNorm excl) (nlTokens text) false [] []).1,
     cleanupGroups (nlWalk (exclNorm excl) (nlTokens text) false [] []).2)

/- images_routes._nl_extract_keyword_groups. -/
def nlExtractKeywordGroups (text : Str) (excl : List Str) : List (List Str) :=
  if text.isEmpty then []
  else
    if (nlCleanedGroups text excl).2.isEmpty then []
    else if !(nlCleanedGroups text excl).1 then
      (flatTerms (nlCleanedGroups text excl).2).map (fun t => [t])
    else (nlCleanedGroups text excl).2

/- Heuristic keyword fallback (_heuristic_keywords_from_text). -/
def rxSizeRangeStrip : Rx :=
  rSeq [rxNum, rSpaceStar, rxUnit, rSpaceStar, rLits ["-", "~", "到", "至", "—", "–"],
    rSpaceStar, rxNum, rSpaceStar, rxUnit]

def rxSizeWordB : Rx := rSeq [rxNum, rSpaceStar, rxUnit, .wordB]

def rxResStrip : Rx :=
  rSeq [rDigits 3 5, rSpaceStar, .cls (ccOf "xX×*"), rSpaceStar, rDigits 3 5]

def rxPStrip : Rx := rSeq [rDigits 3 4, rStrCI "p", .wordB]

def heurOpenQuotes : Str := ['“', '"', apos, '‘', '’']

def heurCloseQuotes : Str := ['”', '"', apos, '‘', '’']

/- The album-phrase removal pattern of _heuristic_keywords_from_text,
   with the extracted album title inserted as a literal (re.escape). -/
def rxAlbumStrip (album : Str) : Rx :=
  rSeq [.opt (rLits ["在", "于", "从"]), rSpaceStar,
    .opt (rLits ["名为", "叫做", "叫", "名称为", "标题为"]), rSpaceStar,
    .opt (.cls (fun c => heurOpenQuotes.contains c)), rSpaceStar,
    .lit album, rSpaceStar,
    .opt (.cls (fun c => heurCloseQuotes.contains c)), rSpaceStar,
    .opt (rStr "的"), rSpaceStar,
    rLits ["相册", "专辑", "文件夹"],
    .opt (rLits ["中", "里", "里面"])]

def heurDropWords : List String :=
  ["帮我", "请", "麻烦", "我要", "我想", "我需要", "能不能", "可以", "帮忙", "所有",
   "全部", "并且", "而且", "同时", "以及", "或者", "或是", "还是", "找", "查找",
   "搜索", "检索", "列出", "显示", "看看", "一下", "相关", "相应", "包含", "主题",
   "之间", "区间", "范围", "以内", "的", "图片", "照片", "相片", "一下子"]

/- The healthy punctuation class of _heuristic_keywords_from_text. -/
def ccHeurPunct (c : Char) : Bool :=
  ccOf "，。,.；;:：!！?？()（）[]\x7b\x7d《》<>" c

def ccTokenCls (c : Char) : Bool :=
  ccCJK c || ccAsciiAlpha c || ccDigit c || c == '_' || c == '-'

def heurSuffixes : List String :=
  ["相册中", "相册里", "专辑中", "专辑里", "文件夹中", "文件夹里"]

def heurLoop (maxTerms : Nat) : List Str → List Str → List Str
  | [], uniq => uniq
  | tok :: rest, uniq =>
    let tok2 := pyStrip (pyStripChars (quoteChars ++ [' ']) tok)
    if tok2.isEmpty then heurLoop maxTerms rest uniq
    else if isNoiseKeyword tok2 then heurLoop maxTerms rest uniq
    else if heurSuffixes.any (fun s => pyEndsWith (toStr s) tok2) then heurLoop maxTerms rest uniq
    else
      let uniq2 := if uniq.contains tok2 then uniq else uniq ++ [tok2]
      if maxTerms ≤ uniq2.length then uniq2 else heurLoop maxTerms rest uniq2

/- images_routes._heuristic_keywords_from_text. -/
def heuristicKeywordsFromText (text : Str) (maxTerms : Nat := 6) : List Str :=
  let t := normalizeQueryText text
  if (pyStrip t).isEmpty then []
  else
    let t :=
      if (reSearch (rLits ["相册", "专辑", "文件夹"]) t).isSome then
        match aiParseAlbum t with
        | some album =>
          if album.isEmpty then t else reSub (rxAlbumStrip album) (toStr " ") t
        | none => t
      else t
    let t := reSub dateTokenRx (toStr " ") t
    let t := reSub rxSizeRangeStrip (toStr " ") t
    let t := reSub rxSizeWordB (toStr " ") t
    let t := reSub rxResStrip (toStr " ") t
    let t := reSub rxPStrip (toStr " ") t
    let t := heurDropWords.foldl (fun acc w => pyReplace (toStr w) (toStr " ") acc) t
    let t := reSub (rPlus (.cls ccHeurPunct)) (toStr " ") t
    let t := pyStrip (reSub (rPlus (.cls ccSpace)) (toStr " ") t)
    let tokens := reFindAll (.rep (.cls ccTokenCls) 2 20) t
    heurLoop maxTerms tokens []

/- images_routes._split_or_segments. -/
def rxOrSplit : Rx :=
  rAlts [rStr "或者是", rStr "或者", rStr "或是", rStr "或则", rStr "还是", rStr "或",
    rSeq [.wordB, rStrCI "or", .wordB], rStr "|"]

def splitOrSegments (text : Str) : List Str :=
  if text.isEmpty then []
  else
    let t := normalizeQueryText text
    let parts := reSplit rxOrSplit t
    let cleaned :=
      (parts.filter (fun p => !(pyStrip p).isEmpty)).map (pyStripChars (toStr " ，。;；:：\n\t"))
    if cleaned.isEmpty then [pyStrip t] else cleaned

/- The SQLAlchemy filter expressions built by the compiler, as an explicit
   condition tree.  Each constructor mirrors one column expression of the
   source; cAnd and cOr mirror and_ and or_ (kept even when applied to a
   single clause). -/
inductive Cond where
  | cAnd (cs : List Cond)
  | cOr (cs : List Cond)
  | nameIlike (p : Str)
  | descIlike (p : Str)
  | origIlike (p : Str)
  | folderIlike (p : Str)
  | tagsAnyIlike (p : Str)
  | albumsAnyIlike (uid : Nat) (p : Str)
  | aiCaptionIlike (p : Str)
  | aiLabelsIlike (p : Str)
  | existsAlbumImages (uid : Nat) (p : Str)
  | sizeGe (n : Nat)
  | sizeLe (n : Nat)
  | pixelsGe (n : Nat)
  | widthGe (n : Nat)
  | heightGe (n : Nat)
  | createdGe (d : PyDateTime)
  | createdLe (d : PyDateTime)
  | takenGe (d : PyDateTime)
  | takenLe (d : PyDateTime)
  | takenNotNull
  | cameraIlike (p : Str)
  | lensIlike (p : Str)
  | idEq (n : Int)
  deriving Repr

/- A catalog entry with the columns the compiler reads.  Nullable columns
   are Options; a none aiCaption models both a missing analysis row and a
   null caption (either way the EXISTS of ai_analysis.has is false). -/
structure ImageRec where
  id : Int
  userId : Nat
  name : Option Str
  description : Option Str
  originalName : Option Str
  folder : Option Str
  tags : List Str
  albums : List (Nat × Str)
  aiCaption : Option Str
  aiLabels : Option Str
  camera : Option Str
  lens : Option Str
  size : Option Nat
  width : Option Nat
  height : Option Nat
  createdAt : PyDateTime
  takenAt : Option PyDateTime
  deletedAt : Option PyDateTime
  isFeatured : Bool

/- SQL LIKE with percent and underscore wildcards, case folded on both
   sides (ilike). -/
def likeF : Nat → Str → Str → Bool
  | 0, _, _ => false
  | _ + 1, [], s => s.isEmpty
  | f + 1, p :: ps, s =>
    if p == '%' then
      likeF f ps s ||
        (match s with
         | [] => false
         | _ :: s2 => likeF f (p :: ps) s2)
    else
      match s with
      | [] => false
      | c :: s2 => if p == '_' then likeF f ps s2 else p == c && likeF f ps s2

def sqlIlike (pat s : Str) : Bool :=
  likeF (pat.length + s.length + 1) (pyLower pat) (pyLower s)

def ilikeOpt (pat : Str) (v : Option Str) : Option Bool :=
  match v with
  | none => none
  | some s => some (sqlIlike pat s)

/- Kleene three-valued logic for SQL AND and OR over NULLs. -/
def kleeneAnd (l : List (Option Bool)) : Option Bool :=
  if l.any (fun x => x == some false) then some false
  else if l.any (fun x => x.isNone) then none
  else some true

def kleeneOr (l : List (Option Bool)) : Option Bool :=
  if l.any (fun x => x == some true) then some true
  else if l.any (fun x => x.isNone) then none
  else some false

def natGeOpt (v : Option Nat) (n : Nat) : Option Bool :=
  match v with | none => none | some x => some (n ≤ x)

def natLeOpt (v : Option Nat) (n : Nat) : Option Bool :=
  match v with | none => none | some x => some (x ≤ n)

def dtGeOpt (v : Option PyDateTime) (d : PyDateTime) : Option Bool :=
  match v with | none => none | some x => some (dtLe d x)

def dtLeOpt (v : Option PyDateTime) (d : PyDateTime) : Option Bool :=
  match v with | none => none | some x => some (dtLe x d)

mutual

/- Evaluate a condition against an entry with SQL three-valued logic; a
   row is kept by filter only when the value is true. -/
def evalC (img : ImageRec) : Cond → Option Bool
  | .cAnd cs => kleeneAnd (evalList img cs)
  | .cOr cs => kleeneOr (evalList img cs)
  | .nameIlike p => ilikeOpt p img.name
  | .descIlike p => ilikeOpt p img.description
  | .origIlike p => ilikeOpt p img.originalName
  | .folderIlike p => ilikeOpt p img.folder
  | .tagsAnyIlike p => some (img.tags.any (fun t => sqlIlike p t))
  | .albumsAnyIlike uid p =>
    some (img.albums.any (fun a => a.1 == uid && sqlIlike p a.2))
  | .aiCaptionIlike p => some ((img.aiCaption.map (fun s => sqlIlike p s)).getD false)
  | .aiLabelsIlike p => some ((img.aiLabels.map (fun s => sqlIlike p s)).getD false)
  | .existsAlbumImages uid p =>
    some (img.albums.any (fun a => a.1 == uid && sqlIlike p a.2))
  | .sizeGe n => natGeOpt img.size n
  | .sizeLe n => natLeOpt img.size n
  | .pixelsGe n => some (n ≤ (img.width.getD 0) * (img.height.getD 0))
  | .widthGe n => natGeOpt img.width n
  | .heightGe n => natGeOpt img.height n
  | .createdGe d => dtGeOpt (some img.createdAt) d
  | .createdLe d => dtLeOpt (some img.createdAt) d
  | .takenGe d => dtGeOpt img.takenAt d
  | .takenLe d => dtLeOpt img.takenAt d
  | .takenNotNull => some img.takenAt.isSome
  | .cameraIlike p => ilikeOpt p img.camera
  | .lensIlike p => ilikeOpt p img.lens
  | .idEq n => some (img.id == n)

def evalList (img : ImageRec) : List Cond → List (Option Bool)
  | [] => []
  | c :: cs => evalC img c :: evalList img cs

end

def condHolds (img : ImageRec) (c : Cond) : Bool := evalC img c == some true

/- images_routes._keyword_term_condition. -/
def pct (t : Str) : Str := toStr "%" ++ t ++ toStr "%"

def keywordTermCondition (uid : Nat) (term : Str) : Option Cond :=
  let t := pyStrip term
  if t.isEmpty then none
  else
    some (.cOr [.nameIlike (pct t), .descIlike (pct t), .origIlike (pct t),
      .folderIlike (pct t), .tagsAnyIlike (pct t), .albumsAnyIlike uid (pct t),
      .aiCaptionIlike (pct t), .aiLabelsIlike (pct t)])

/- The per-group AND terms of _build_keyword_groups_condition. -/
def groupAndTerms (uid : Nat) (group : List Str) : List Cond :=
  group.foldl
    (fun acc term =>
      match keywordTermCondition uid term with
      | some c => acc ++ [c]
      | none => acc)
    []

def orCondsOfGroups (uid : Nat) (gs : List (List Str)) : List Cond :=
  gs.foldl
    (fun acc g =>
      match groupAndTerms uid g with
      | [] => acc
      | [c] => acc ++ [c]
      | c :: c2 :: rest => acc ++ [Cond.cAnd (c :: c2 :: rest)])
    []

/- images_routes._build_keyword_groups_condition. -/
def buildKeywordGroupsCondition (uid : Nat) (gs : List (List Str)) : Option Cond :=
  if gs.isEmpty then none
  else
    match orCondsOfGroups uid gs with
    | [] => none
    | [c] => some c
    | c :: c2 :: rest => some (.cOr (c :: c2 :: rest))

/- The tolerance widening applied when a size query parses to a single
   exact value (inlined at images_routes lines 1493-1503 and 2158-2169):
   tol = max(int(v * 0.1), 500 * 1024), lower bound max(0, v - tol)
   (saturating Nat subtraction), upper bound v + tol.  Python computes
   int(v * 0.1) through a float; for byte counts it is the integer tenth. -/
def pyTenth (v : Nat) : Nat := v / 10

def widenSizeBounds (sizeMin sizeMax : Option Nat) : Option Nat × Option Nat :=
  match sizeMin, sizeMax with
  | some a, some b =>
    if a == b then
      let tol := max (pyTenth a) (500 * 1024)
      (some (a - tol), some (b + tol))
    else (some a, some b)
  | a, b => (a, b)

/- The keyword shape filters of _ai_build_clause_condition. -/
def looksLikeDate (s : Str) : Bool := (reSearch dateTokenRx s).isSome

def rxLooksSize : Rx :=
  .alt (.group 1 rxSizeRangeStrip) (.group 2 (rSeq [rxNum, rSpaceStar, rxUnit]))

def looksLikeSize (s : Str) : Bool := (reSearch rxLooksSize s).isSome

def looksLikeResolution (s : Str) : Bool :=
  (reSearch rxResStrip s).isSome || (reSearch rxPStrip s).isSome

/- The keyword vetting loop of _ai_build_clause_condition (lines
   1454-1466), one iteration. -/
def validKeywordsStep (acc : List Str) (kw0 : Str) : List Str :=
  let kw := pyStrip kw0
  if kw.isEmpty then acc
  else if 40 < kw.length then acc
  else if isNoiseKeyword kw then acc
  else if looksLikeDate kw || looksLikeSize kw || looksLikeResolution kw then acc
  else if acc.contains kw then acc
  else acc ++ [kw]

def validKeywords (keywords : List Str) : List Str := keywords.foldl validKeywordsStep []

def optNatTruthy (o : Option Nat) : Bool := o.getD 0 != 0

/- The keyword terms that survive into the clause built by
   _ai_build_clause_condition: the vetting loop, then removal of the
   extracted album title (line 1471). -/
def clauseKeywords (text0 : Str) (keywords : List Str) : List Str :=
  let text := normalizeQueryText text0
  let albumTitle := aiParseAlbum text
  let vk := validKeywords keywords
  if optTruthy albumTitle then vk.filter (fun kw => pyStrip kw ≠ albumTitle.getD []) else vk

/- images_routes._ai_build_clause_condition. -/
def aiBuildClauseCondition (uid : Nat) (text0 : Str) (keywords : List Str) : Option Cond :=
  let text := normalizeQueryText text0
  let dr := aiParseDateRange text
  let startDt := dr.1
  let endDt := dr.2.1
  let dateField := dr.2.2
  let sz := aiParseSize text
  let resInfo := aiParseResolution text
  let albumTitle := aiParseAlbum text
  let cameraKw := aiParseCameraKeyword text
  let albumTruthy := optTruthy albumTitle
  let at_ := albumTitle.getD []
  let vk := clauseKeywords text0 keywords
  let structured :=
    (if albumTruthy then
       [Cond.cOr [.folderIlike (pct at_), .albumsAnyIlike uid (pct at_),
         .existsAlbumImages uid (pct at_)]]
     else []) ++
    (match startDt, endDt with
     | some s, some e =>
       if dateField = "taken" then [Cond.cAnd [.takenGe s, .takenLe e]]
       else [Cond.cAnd [.createdGe s, .createdLe e]]
     | _, _ => []) ++
    (if sz.1.isSome || sz.2.isSome then
       let wb := widenSizeBounds sz.1 sz.2
       (match wb.1 with | some m => [Cond.sizeGe m] | none => []) ++
       (match wb.2 with | some m => [Cond.sizeLe m] | none => [])
     else []) ++
    (if optNatTruthy resInfo.pixels then [Cond.pixelsGe (resInfo.pixels.getD 0)] else []) ++
    (if optNatTruthy resInfo.width then [Cond.widthGe (resInfo.width.getD 0)] else []) ++
    (if optNatTruthy resInfo.height then [Cond.heightGe (resInfo.height.getD 0)] else []) ++
    (if optTruthy cameraKw then
       [Cond.cOr [.cameraIlike (pct (cameraKw.getD [])), .lensIlike (pct (cameraKw.getD []))]]
     else [])
  let conds :=
    vk.foldl
      (fun acc kw =>
        match keywordTermCondition uid kw with
        | some c => acc ++ [c]
        | none => acc)
      []
  let keywordCond : Option Cond :=
    if vk.isEmpty then none else if conds.isEmpty then none else some (.cOr conds)
  match structured.isEmpty, keywordCond with
  | false, some kc => some (.cAnd [Cond.cAnd structured, kc])
  | false, none => some (.cAnd structured)
  | true, some kc => some kc
  | true, none => none

/- What _ai_advanced_search does to its query before ordering: return
   nothing at all, keep the query unfiltered, or filter it with one
   condition. -/
inductive SearchPlan where
  | emptyResult
  | noFilter
  | withCond (c : Cond)
  deriving Repr

/- The per-segment keyword list of the OR branch of _ai_advanced_search:
   the heuristic keywords of the segment, then every auxiliary hint that
   occurs literally inside the segment. -/
def segKeywords (seg : Str) (keywords : List Str) : List Str :=
  keywords.foldl
    (fun sk kw0 =>
      let kw := pyStrip kw0
      if !kw.isEmpty && containsSub seg kw && !sk.contains kw then sk ++ [kw] else sk)
    (heuristicKeywordsFromText seg 6)

/- The filtering decision of _ai_advanced_search (lines 1550-1571). -/
def aiAdvancedSearchPlan (uid : Nat) (text : Str) (keywords : List Str) : SearchPlan :=
  if aiDetectLogicMode text = "or" then
    let clauseConds :=
      (splitOrSegments text).foldl
        (fun acc seg =>
          match aiBuildClauseCondition uid seg (segKeywords seg keywords) with
          | some c => acc ++ [c]
          | none => acc)
        []
    match clauseConds with
    | [] => .emptyResult
    | cs => .withCond (.cOr cs)
  else
    match aiBuildClauseCondition uid text keywords with
    | some c => .withCond c
    | none => .noFilter

/- images_routes._query_user_images: the caller scoped, non-deleted
   entries. -/
def queryUserImages (uid : Nat) (catalog : List ImageRec) : List ImageRec :=
  catalog.filter (fun img => img.userId == uid && img.deletedAt.isNone)

/- order_by(Image.created_at.desc()); ties are returned in an order the
   SQL backend does not specify, here input order. -/
def insertDesc (img : ImageRec) : List ImageRec → List ImageRec
  | [] => [img]
  | x :: xs => if dtLt x.createdAt img.createdAt then img :: x :: xs else x :: insertDesc img xs

def sortByCreatedDesc (l : List ImageRec) : List ImageRec := l.foldr insertDesc []

/- The limit handling of _ai_advanced_search: absent or nonpositive means
   unlimited. -/
def applyLimit (limit : Option Int) (l : List ImageRec) : List ImageRec :=
  match limit with
  | none => l
  | some n => if n ≤ 0 then l else l.take n.toNat

/- images_routes._ai_advanced_search, returning the matched entries in
   result order (the route serializes them to summary dicts). -/
def aiAdvancedSearch (uid : Nat) (text : Str) (keywords : List Str) (limit : Option Int)
    (catalog : List ImageRec) : List ImageRec :=
  let q := queryUserImages uid catalog
  match aiAdvancedSearchPlan uid text keywords with
  | .emptyResult => []
  | .noFilter => applyLimit limit (sortByCreatedDesc q)
  | .withCond c => applyLimit limit (sortByCreatedDesc (q.filter (fun img => condHolds img c)))

/- The keyword block of the GET /search route (search_images, lines
   2117-2197), modelled with every other request parameter absent: the
   list of conditions the route adds to the base query through filter
   calls (successive filters conjoin).  The route strips the keyword
   parameter on entry (line 2096). -/
def searchImagesNLConds (uid : Nat) (keyword0 : Str) : List Cond :=
  let keyword := pyStrip keyword0
  if keyword.isEmpty then []
  else
    let inferredAlbum := aiParseAlbum keyword
    let albumTruthy := optTruthy inferredAlbum
    let at_ := inferredAlbum.getD []
    let exclAlbum : List Str := if albumTruthy then [at_] else []
    let condsAlbum : List Cond :=
      if albumTruthy then
        [Cond.cOr [.albumsAnyIlike uid (pct at_), .folderIlike (pct at_)]]
      else []
    let inferredCamera := aiParseCameraKeyword keyword
    let camTruthy := optTruthy inferredCamera
    let ck := inferredCamera.getD []
    let excl := exclAlbum ++ (if camTruthy then [ck] else [])
    let condsCam : List Cond :=
      if camTruthy then [Cond.cOr [.cameraIlike (pct ck), .lensIlike (pct ck)]] else []
    let dr := aiParseDateRange keyword
    let condsDate : List Cond :=
      match dr.1, dr.2.1 with
      | some s, some e =>
        if dr.2.2 = "taken" then [Cond.takenNotNull, .takenGe s, .takenLe e]
        else [Cond.createdGe s, .createdLe e]
      | _, _ => []
    let sz := aiParseSize keyword
    let condsSize : List Cond :=
      if sz.1.isSome || sz.2.isSome then
        let wb := widenSizeBounds sz.1 sz.2
        (match wb.1 with | some m => [Cond.sizeGe m] | none => []) ++
        (match wb.2 with | some m => [Cond.sizeLe m] | none => [])
      else []
    let resInfo := aiParseResolution keyword
    let condsRes : List Cond :=
      (if optNatTruthy resInfo.pixels then [Cond.pixelsGe (resInfo.pixels.getD 0)] else []) ++
      (if optNatTruthy resInfo.width then [Cond.widthGe (resInfo.width.getD 0)] else []) ++
      (if optNatTruthy resInfo.height then [Cond.heightGe (resInfo.height.getD 0)] else [])
    let structured := condsAlbum ++ condsCam ++ condsDate ++ condsSize ++ condsRes
    let keywordGroups := nlExtractKeywordGroups keyword excl
    let keywordCond := buildKeywordGroupsCondition uid keywordGroups
    match structured.isEmpty, keywordCond with
    | false, some kc =>
      if aiDetectLogicMode keyword = "or" then [Cond.cOr [Cond.cAnd structured, kc]]
      else [Cond.cAnd structured, kc]
    | false, none => [Cond.cAnd structured]
    | true, some kc => [kc]
    | true, none => [Cond.idEq (-1)]

/- The set of entries the route retains after the keyword block (ordering
   and pagination are applied downstream of these filters). -/
def searchImagesFiltered (uid : Nat) (keyword : Str) (catalog : List ImageRec) :
    List ImageRec :=
  (searchImagesNLConds uid keyword).foldl
    (fun acc c => acc.filter (fun img => condHolds img c))
    (queryUserImages uid catalog)

/- Theorems about the compiler. -/

/- Character-level facts about the Python strip primitives. -/

theorem mem_dropLeading (p : Char → Bool) (s : Str) (c : Char) (h : c ∈ dropLeading p s) :
    c ∈ s := by
  induction s with
  | nil => simp [dropLeading] at h
  | cons x xs ih =>
    by_cases hx : p x = true
    · simp only [dropLeading, hx, if_true] at h
      exact List.mem_cons_of_mem _ (ih h)
    · simp only [dropLeading, hx] at h
      simpa using h

theorem mem_pyStripP (p : Char → Bool) (s : Str) (c : Char) (h : c ∈ pyStripP p s) : c ∈ s := by
  unfold pyStripP at h
  rw [List.mem_reverse] at h
  have h2 := mem_dropLeading _ _ _ h
  rw [List.mem_reverse] at h2
  exact mem_dropLeading _ _ _ h2

theorem dropLeading_head_false (p : Char → Bool) (s : Str) :
    ∀ c rest, dropLeading p s = c :: rest → p c = false := by
  induction s with
  | nil => intro c rest h; simp [dropLeading] at h
  | cons x xs ih =>
    intro c rest h
    cases hpx : p x with
    | true =>
      simp only [dropLeading, hpx, if_true] at h
      exact ih c rest h
    | false =>
      simp [dropLeading, hpx] at h
      exact h.1 ▸ hpx

theorem dropLeading_of_forall (p : Char → Bool) (s : Str) (h : ∀ c ∈ s, p c = false) :
    dropLeading p s = s := by
  cases s with
  | nil => rfl
  | cons x xs => simp [dropLeading, h x (List.mem_cons_self x xs)]

theorem pyStripP_of_forall (p : Char → Bool) (s : Str) (h : ∀ c ∈ s, p c = false) :
    pyStripP p s = s := by
  unfold pyStripP
  rw [dropLeading_of_forall p s h]
  rw [dropLeading_of_forall p s.reverse (fun c hc => h c (List.mem_reverse.mp hc))]
  exact List.reverse_reverse s

theorem pyStrip_of_noWs (s : Str) (h : ∀ c ∈ s, isPySpace c = false) : pyStrip s = s :=
  pyStripP_of_forall _ _ h

theorem dropLeading_getLast? (p : Char → Bool) (s : Str) (h : dropLeading p s ≠ []) :
    (dropLeading p s).getLast? = s.getLast? := by
  induction s with
  | nil => simp [dropLeading] at h
  | cons x xs ih =>
    cases hpx : p x with
    | true =>
      simp only [dropLeading, hpx, if_true] at h ⊢
      have hne : xs ≠ [] := by
        intro hc
        rw [hc] at h
        simp [dropLeading] at h
      rw [ih h]
      rcases xs with _ | ⟨z, zs⟩
      · exact absurd rfl hne
      · simp [List.getLast?_cons_cons]
    | false => simp [dropLeading, hpx]

theorem dropLeading_noop_of_head (p : Char → Bool) (s : Str)
    (h : ∀ c, s.head? = some c → p c = false) : dropLeading p s = s := by
  cases s with
  | nil => rfl
  | cons x xs => simp [dropLeading, h x rfl]

theorem pyStripP_idem (p : Char → Bool) (s : Str) :
    pyStripP p (pyStripP p s) = pyStripP p s := by
  rcases hB : dropLeading p (dropLeading p s).reverse with _ | ⟨b, bs⟩
  · unfold pyStripP
    rw [hB]
    rfl
  · have hRval : pyStripP p s = (b :: bs).reverse := by unfold pyStripP; rw [hB]
    have hA : dropLeading p s ≠ [] := by
      intro hc
      rw [hc] at hB
      simp [dropLeading] at hB
    rcases hAv : dropLeading p s with _ | ⟨a, as⟩
    · exact absurd hAv hA
    · have hpa : p a = false := dropLeading_head_false p s a as hAv
      have hlast : (b :: bs).getLast? = some a := by
        have h1 : (dropLeading p (dropLeading p s).reverse).getLast? =
            (dropLeading p s).reverse.getLast? :=
          dropLeading_getLast? p _ (by rw [hB]; simp)
        rw [hB] at h1
        rw [h1, List.getLast?_reverse, hAv]
        rfl
      have hpb : p b = false := dropLeading_head_false p _ b bs hB
      rw [hRval]
      unfold pyStripP
      have hhead : ∀ c, (b :: bs).reverse.head? = some c → p c = false := by
        intro c hc
        rw [List.head?_reverse] at hc
        rw [hlast] at hc
        cases hc
        exact hpa
      rw [dropLeading_noop_of_head p _ hhead, List.reverse_reverse,
        dropLeading_noop_of_head p _ (fun c hc => by cases hc; exact hpb)]

theorem pyStrip_idem (s : Str) : pyStrip (pyStrip s) = pyStrip s := pyStripP_idem _ s

/- Tokens produced by the whitespace split are nonempty and free of
   whitespace characters. -/
theorem splitWsAux_prop (s : Str) :
    ∀ acc, (∀ c ∈ acc, isPySpace c = false) →
      ∀ tok ∈ splitWsAux s acc, tok ≠ [] ∧ ∀ c ∈ tok, isPySpace c = false := by
  induction s with
  | nil =>
    intro acc hacc tok htok
    cases he : acc.isEmpty with
    | true => simp [splitWsAux, he] at htok
    | false =>
      simp only [splitWsAux, he] at htok
      simp only [Bool.false_eq_true, if_false, List.mem_singleton] at htok
      subst htok
      have hne : acc ≠ [] := by
        intro hc
        rw [hc] at he
        simp at he
      refine ⟨by simpa using hne, fun c hc => hacc c (List.mem_reverse.mp hc)⟩
  | cons x xs ih =>
    intro acc hacc tok htok
    cases hx : isPySpace x with
    | true =>
      cases he : acc.isEmpty with
      | true =>
        simp only [splitWsAux, hx, he, if_true] at htok
        exact ih [] (by simp) tok htok
      | false =>
        simp only [splitWsAux, hx, he, if_true, Bool.false_eq_true, if_false,
          List.mem_cons] at htok
        rcases htok with rfl | htok
        · have hne : acc ≠ [] := by
            intro hc
            rw [hc] at he
            simp at he
          refine ⟨by simpa using hne, fun c hc => hacc c (List.mem_reverse.mp hc)⟩
        · exact ih [] (by simp) tok htok
    | false =>
      simp only [splitWsAux, hx, Bool.false_eq_true, if_false] at htok
      refine ih (x :: acc) ?_ tok htok
      intro c hc
      rcases List.mem_cons.mp hc with rfl | hc
      · exact hx
      · exact hacc c hc

theorem splitWs_prop (s : Str) :
    ∀ tok ∈ splitWs s, tok ≠ [] ∧ ∀ c ∈ tok, isPySpace c = false :=
  splitWsAux_prop s [] (by simp)

/- The terms the token walk can put into a group: nonempty, whitespace
   free, and outside the normalized exclusion set. -/
def TermOk (ex : List Str) (t : Str) : Prop :=
  t ≠ [] ∧ (∀ c ∈ t, isPySpace c = false) ∧ t ∉ ex

theorem nlWalk_groups_prop (ex : List Str) :
    ∀ toks : List Str, (∀ tok ∈ toks, ∀ c ∈ tok, isPySpace c = false) →
      ∀ b done cur, (∀ g ∈ done, ∀ t ∈ g, TermOk ex t) → (∀ t ∈ cur, TermOk ex t) →
        ∀ g ∈ (nlWalk ex toks b done cur).2, ∀ t ∈ g, TermOk ex t := by
  intro toks
  induction toks with
  | nil =>
    intro _ b done cur hdone hcur g hg t ht
    simp only [nlWalk] at hg
    rcases List.mem_append.mp hg with hg | hg
    · exact hdone g hg t ht
    · rw [List.mem_singleton] at hg
      subst hg
      exact hcur t ht
  | cons tok rest ih =>
    intro htoks b done cur hdone hcur
    have htoksRest : ∀ tk ∈ rest, ∀ c ∈ tk, isPySpace c = false :=
      fun tk htk => htoks tk (List.mem_cons_of_mem _ htk)
    have htok : ∀ c ∈ tok, isPySpace c = false := htoks tok (List.mem_cons_self _ _)
    by_cases h1 : tok = toStr "__OR__"
    · simp only [nlWalk, if_pos h1]
      cases hc : cur.isEmpty with
      | true =>
        have : cur = [] := by simpa using hc
        simp only [this, List.isEmpty_nil, Bool.not_true, Bool.false_eq_true, if_false]
        exact ih htoksRest b done [] hdone (by simp)
      | false =>
        simp only [hc, Bool.not_false, if_true]
        refine ih htoksRest b (done ++ [cur]) [] ?_ (by simp)
        intro g hg t ht
        rcases List.mem_append.mp hg with hg | hg
        · exact hdone g hg t ht
        · rw [List.mem_singleton] at hg
          subst hg
          exact hcur t ht
    · by_cases h2 : tok = toStr "__AND__"
      · simp only [nlWalk, if_neg h1, if_pos h2]
        exact ih htoksRest true done cur hdone hcur
      · simp only [nlWalk, if_neg h1, if_neg h2]
        set tok1 := pyStripChars quoteChars tok with htok1
        set tok1b := if pyStartsWith (toStr "#") tok1 then tok1.drop 1 else tok1 with htok1b
        set tok2 := pyStrip tok1b with htok2
        have hsub : ∀ c ∈ tok2, c ∈ tok := by
          intro c hcm
          have h3 : c ∈ tok1b := mem_pyStripP _ _ _ hcm
          have h4 : c ∈ tok1 := by
            rw [htok1b] at h3
            by_cases hh : pyStartsWith (toStr "#") tok1
            · rw [if_pos hh] at h3
              exact List.drop_subset _ _ h3
            · rwa [if_neg hh] at h3
          exact mem_pyStripP _ _ _ h4
        have hws2 : ∀ c ∈ tok2, isPySpace c = false := fun c hcm => htok c (hsub c hcm)
        by_cases h3 : tok2.isEmpty
        · simp only [h3, if_true]
          exact ih htoksRest b done cur hdone hcur
        · simp only [h3, if_false]
          by_cases h4 : ex.contains tok2
          · simp only [h4, if_true]
            exact ih htoksRest b done cur hdone hcur
          · simp only [h4, if_false]
            by_cases h5 : looksStructuredToken tok2
            · simp only [h5, if_true]
              exact ih htoksRest b done cur hdone hcur
            · simp only [h5, if_false]
              refine ih htoksRest b done (cur ++ [tok2]) hdone ?_
              intro t ht
              rcases List.mem_append.mp ht with ht | ht
              · exact hcur t ht
              · rw [List.mem_singleton] at ht
                subst ht
                refine ⟨by simpa using h3, hws2, ?_⟩
                intro hmem
                exact h4 (List.elem_eq_true_of_mem hmem)

theorem nlWalk_and_flag (ex : List Str) :
    ∀ toks b done cur, (toStr "__AND__") ∉ toks → (nlWalk ex toks b done cur).1 = b := by
  intro toks
  induction toks with
  | nil => intro b done cur _; rfl
  | cons tok rest ih =>
    intro b done cur hno
    have hno2 : (toStr "__AND__") ∉ rest := fun h => hno (List.mem_cons_of_mem _ h)
    have hne : tok ≠ toStr "__AND__" := fun h => hno (h ▸ List.mem_cons_self _ _)
    by_cases h1 : tok = toStr "__OR__"
    · simp only [nlWalk, if_pos h1]
      cases hc : cur.isEmpty with
      | true =>
        have : cur = [] := by simpa using hc
        simp only [this, List.isEmpty_nil, Bool.not_true, Bool.false_eq_true, if_false]
        exact ih b done [] hno2
      | false =>
        simp only [hc, Bool.not_false, if_true]
        exact ih b (done ++ [cur]) [] hno2
    · simp only [nlWalk, if_neg h1, if_neg hne]
      repeat' split
      all_goals exact ih _ _ _ hno2

/- Properties of the per-group deduplication. -/
theorem uniqFold_mem (g : List Str) :
    ∀ acc t,
      t ∈ g.foldl (fun u term => if !term.isEmpty && !u.contains term then u ++ [term] else u) acc →
      t ∈ acc ∨ (t ∈ g ∧ t ≠ []) := by
  induction g with
  | nil => intro acc t h; exact Or.inl h
  | cons x xs ih =>
    intro acc t h
    simp only [List.foldl_cons] at h
    by_cases hc : (!x.isEmpty && !acc.contains x) = true
    · rw [if_pos hc] at h
      rcases ih _ t h with h2 | h2
      · rcases List.mem_append.mp h2 with h3 | h3
        · exact Or.inl h3
        · rw [List.mem_singleton] at h3
          subst h3
          refine Or.inr ⟨List.mem_cons_self _ _, ?_⟩
          have h4 := ((Bool.and_eq_true _ _).mp hc).1
          simpa using h4
      · exact Or.inr ⟨List.mem_cons_of_mem _ h2.1, h2.2⟩
    · rw [if_neg hc] at h
      rcases ih _ t h with h2 | h2
      · exact Or.inl h2
      · exact Or.inr ⟨List.mem_cons_of_mem _ h2.1, h2.2⟩

theorem uniqFold_nodup (g : List Str) :
    ∀ acc, acc.Nodup →
      (g.foldl (fun u term => if !term.isEmpty && !u.contains term then u ++ [term] else u)
        acc).Nodup := by
  induction g with
  | nil => intro acc h; exact h
  | cons x xs ih =>
    intro acc h
    simp only [List.foldl_cons]
    by_cases hc : (!x.isEmpty && !acc.contains x) = true
    · rw [if_pos hc]
      refine ih _ ?_
      have hnm : x ∉ acc := by
        intro hmem
        have h2 := ((Bool.and_eq_true _ _).mp hc).2
        have h3 : acc.contains x = true := List.elem_eq_true_of_mem hmem
        rw [h3] at h2
        simp at h2
      rw [List.nodup_append]
      refine ⟨h, List.nodup_singleton x, ?_⟩
      intro a ha hax
      rw [List.mem_singleton] at hax
      subst hax
      exact hnm ha
    · rw [if_neg hc]
      exact ih _ h

theorem cleanupGroups_prop (gs : List (List Str)) :
    ∀ g ∈ cleanupGroups gs, g ≠ [] ∧ g.Nodup ∧ ∃ g0 ∈ gs, ∀ t ∈ g, t ∈ g0 ∧ t ≠ [] := by
  intro g hg
  unfold cleanupGroups at hg
  rcases List.mem_filter.mp hg with ⟨hmap, hne⟩
  rcases List.mem_map.mp hmap with ⟨g0, hg0, rfl⟩
  refine ⟨by simpa using hne, uniqFold_nodup g0 [] (by simp), g0, hg0, ?_⟩
  intro t ht
  rcases uniqFold_mem g0 [] t ht with h | h
  · simp at h
  · exact h

/- Membership in the flattening accumulation. -/
theorem flatInner_mem (g : List Str) :
    ∀ acc t,
      t ∈ g.foldl (fun fl term => if !term.isEmpty && !fl.contains term then fl ++ [term] else fl)
          acc ↔
        t ∈ acc ∨ (t ∈ g ∧ t ≠ []) := by
  induction g with
  | nil => intro acc t; simp
  | cons x xs ih =>
    intro acc t
    simp only [List.foldl_cons]
    by_cases hc : (!x.isEmpty && !acc.contains x) = true
    · rw [if_pos hc, ih]
      have hxne : x ≠ [] := by
        have h1 := ((Bool.and_eq_true _ _).mp hc).1
        simpa using h1
      constructor
      · rintro (h | h)
        · rcases List.mem_append.mp h with h | h
          · exact Or.inl h
          · rw [List.mem_singleton] at h
            exact Or.inr ⟨h ▸ List.mem_cons_self _ _, h ▸ hxne⟩
        · exact Or.inr ⟨List.mem_cons_of_mem _ h.1, h.2⟩
      · rintro (h | ⟨h1, h2⟩)
        · exact Or.inl (List.mem_append.mpr (Or.inl h))
        · rcases List.mem_cons.mp h1 with rfl | h1
          · exact Or.inl (List.mem_append.mpr (Or.inr (by simp)))
          · exact Or.inr ⟨h1, h2⟩
    · rw [if_neg hc, ih]
      constructor
      · rintro (h | h)
        · exact Or.inl h
        · exact Or.inr ⟨List.mem_cons_of_mem _ h.1, h.2⟩
      · rintro (h | ⟨h1, h2⟩)
        · exact Or.inl h
        · rcases List.mem_cons.mp h1 with rfl | h1
          · by_cases hin : acc.contains t = true
            · exact Or.inl (List.mem_of_elem_eq_true hin)
            · exfalso
              apply hc
              rw [Bool.and_eq_true]
              constructor
              · have he : t.isEmpty = false := by
                  cases t with
                  | nil => exact absurd rfl h2
                  | cons a as => rfl
                rw [he]
                rfl
              · have he : acc.contains t = false := by
                  cases hb : acc.contains t
                  · rfl
                  · exact absurd hb hin
                rw [he]
                rfl
          · exact Or.inr ⟨h1, h2⟩

theorem flatOuter_mem (gs : List (List Str)) :
    ∀ acc t,
      t ∈ gs.foldl
            (fun flat g =>
              g.foldl (fun fl term => if !term.isEmpty && !fl.contains term then fl ++ [term]
                else fl) flat)
            acc ↔
        t ∈ acc ∨ ∃ g ∈ gs, t ∈ g ∧ t ≠ [] := by
  induction gs with
  | nil => intro acc t; simp
  | cons g gs ih =>
    intro acc t
    simp only [List.foldl_cons]
    rw [ih, flatInner_mem]
    constructor
    · rintro ((h | h) | ⟨g2, hg2, h⟩)
      · exact Or.inl h
      · exact Or.inr ⟨g, List.mem_cons_self _ _, h⟩
      · exact Or.inr ⟨g2, List.mem_cons_of_mem _ hg2, h⟩
    · rintro (h | ⟨g2, hg2, h⟩)
      · exact Or.inl (Or.inl h)
      · rcases List.mem_cons.mp hg2 with rfl | hg2
        · exact Or.inl (Or.inr h)
        · exact Or.inr ⟨g2, hg2, h⟩

theorem flatTerms_mem (cleaned : List (List Str)) (t : Str) :
    t ∈ flatTerms cleaned ↔ ∃ g ∈ cleaned, t ∈ g ∧ t ≠ [] := by
  unfold flatTerms
  rw [flatOuter_mem]
  simp

/- The groups surviving cleanup hold only walk-approved terms. -/
theorem nlCleaned_terms_ok (text : Str) (excl : List Str) :
    ∀ g ∈ (nlCleanedGroups text excl).2,
      g ≠ [] ∧ g.Nodup ∧ ∀ t ∈ g, TermOk (exclNorm excl) t := by
  intro g hg
  unfold nlCleanedGroups at hg
  by_cases hraw : (nlTokens text).isEmpty = true
  · rw [if_pos hraw] at hg
    simp at hg
  · rw [if_neg hraw] at hg
    rcases cleanupGroups_prop _ g hg with ⟨hne, hnd, g0, hg0, hsub⟩
    refine ⟨hne, hnd, ?_⟩
    intro t ht
    exact nlWalk_groups_prop (exclNorm excl) (nlTokens text)
      (fun tk htk => (splitWs_prop _ tk htk).2) false [] [] (by simp) (by simp)
      g0 hg0 t (hsub t ht).1

/- Every term of every group the extractor returns is nonempty,
   whitespace free, and outside the normalized exclusion set. -/
theorem nlExtract_terms_ok (text : Str) (excl : List Str) :
    ∀ g ∈ nlExtractKeywordGroups text excl, ∀ t ∈ g, TermOk (exclNorm excl) t := by
  intro g hg t ht
  unfold nlExtractKeywordGroups at hg
  by_cases h0 : text.isEmpty = true
  · rw [if_pos h0] at hg
    simp at hg
  · rw [if_neg h0] at hg
    by_cases h1 : (nlCleanedGroups text excl).2.isEmpty = true
    · rw [if_pos h1] at hg
      simp at hg
    · rw [if_neg h1] at hg
      by_cases h2 : (!(nlCleanedGroups text excl).1) = true
      · rw [if_pos h2] at hg
        rcases List.mem_map.mp hg with ⟨t2, ht2, rfl⟩
        rw [List.mem_singleton] at ht
        subst ht
        rcases (flatTerms_mem _ _).mp ht2 with ⟨g0, hg0, htg0, _⟩
        exact (nlCleaned_terms_ok text excl g0 hg0).2.2 t htg0
      · rw [if_neg h2] at hg
        exact (nlCleaned_terms_ok text excl g hg).2.2 t ht

theorem nlExtract_groups_wf (text : Str) (excl : List Str) :
    ∀ g ∈ nlExtractKeywordGroups text excl, g ≠ [] ∧ g.Nodup := by
  intro g hg
  unfold nlExtractKeywordGroups at hg
  by_cases h0 : text.isEmpty = true
  · rw [if_pos h0] at hg
    simp at hg
  · rw [if_neg h0] at hg
    by_cases h1 : (nlCleanedGroups text excl).2.isEmpty = true
    · rw [if_pos h1] at hg
      simp at hg
    · rw [if_neg h1] at hg
      by_cases h2 : (!(nlCleanedGroups text excl).1) = true
      · rw [if_pos h2] at hg
        rcases List.mem_map.mp hg with ⟨t2, _, rfl⟩
        exact ⟨by simp, List.nodup_singleton t2⟩
      · rw [if_neg h2] at hg
        exact ⟨(nlCleaned_terms_ok text excl g hg).1, (nlCleaned_terms_ok text excl g hg).2.1⟩

/- Members of the clause builder keyword vetting loop. -/
theorem validKeywords_fold (ks : List Str) :
    ∀ acc : List Str,
      (∀ kw ∈ acc, pyStrip kw = kw ∧ isNoiseKeyword kw = false ∧ kw ≠ []) →
      ∀ kw ∈ ks.foldl validKeywordsStep acc,
        pyStrip kw = kw ∧ isNoiseKeyword kw = false ∧ kw ≠ [] := by
  induction ks with
  | nil => intro acc hacc kw hkw; exact hacc kw hkw
  | cons k ks ih =>
    intro acc hacc kw hkw
    simp only [List.foldl_cons] at hkw
    refine ih _ ?_ kw hkw
    intro kw2 hkw2
    simp only [validKeywordsStep] at hkw2
    by_cases h1 : (pyStrip k).isEmpty = true
    · rw [if_pos h1] at hkw2
      exact hacc kw2 hkw2
    · rw [if_neg h1] at hkw2
      by_cases h2 : 40 < (pyStrip k).length
      · rw [if_pos h2] at hkw2
        exact hacc kw2 hkw2
      · rw [if_neg h2] at hkw2
        by_cases h3 : isNoiseKeyword (pyStrip k) = true
        · rw [if_pos h3] at hkw2
          exact hacc kw2 hkw2
        · rw [if_neg h3] at hkw2
          by_cases h4 : (looksLikeDate (pyStrip k) || looksLikeSize (pyStrip k) ||
              looksLikeResolution (pyStrip k)) = true
          · rw [if_pos h4] at hkw2
            exact hacc kw2 hkw2
          · rw [if_neg h4] at hkw2
            by_cases h5 : acc.contains (pyStrip k) = true
            · rw [if_pos h5] at hkw2
              exact hacc kw2 hkw2
            · rw [if_neg h5] at hkw2
              rcases List.mem_append.mp hkw2 with h6 | h6
              · exact hacc kw2 h6
              · rw [List.mem_singleton] at h6
                subst h6
                refine ⟨pyStrip_idem k, ?_, by simpa using h1⟩
                cases hb : isNoiseKeyword (pyStrip k)
                · rfl
                · exact absurd hb h3

theorem validKeywords_mem_prop (keywords : List Str) :
    ∀ kw ∈ validKeywords keywords,
      pyStrip kw = kw ∧ isNoiseKeyword kw = false ∧ kw ≠ [] :=
  validKeywords_fold keywords [] (by simp)

/- Each group whose terms strip to nonempty strings contributes exactly
   one AND term per keyword. -/
theorem groupAndTerms_fold_len (uid : Nat) (g : List Str) :
    ∀ acc : List Cond, (∀ t ∈ g, pyStrip t ≠ []) →
      (g.foldl
        (fun acc term =>
          match keywordTermCondition uid term with
          | some c => acc ++ [c]
          | none => acc)
        acc).length = acc.length + g.length := by
  induction g with
  | nil => intro acc _; simp
  | cons t ts ih =>
    intro acc h
    simp only [List.foldl_cons]
    have hne : ¬(pyStrip t).isEmpty = true := by
      have := h t (List.mem_cons_self _ _)
      simpa using this
    have hstep : keywordTermCondition uid t =
        some (.cOr [.nameIlike (pct (pyStrip t)), .descIlike (pct (pyStrip t)),
          .origIlike (pct (pyStrip t)), .folderIlike (pct (pyStrip t)),
          .tagsAnyIlike (pct (pyStrip t)), .albumsAnyIlike uid (pct (pyStrip t)),
          .aiCaptionIlike (pct (pyStrip t)), .aiLabelsIlike (pct (pyStrip t))]) := by
      unfold keywordTermCondition
      rw [if_neg hne]
    rw [hstep]
    rw [ih _ (fun t2 ht2 => h t2 (List.mem_cons_of_mem _ ht2))]
    simp
    omega

theorem groupAndTerms_len (uid : Nat) (g : List Str) (h : ∀ t ∈ g, pyStrip t ≠ []) :
    (groupAndTerms uid g).length = g.length := by
  unfold groupAndTerms
  rw [groupAndTerms_fold_len uid g [] h]
  simp

theorem orCondsOfGroups_fold_len (uid : Nat) (gs : List (List Str)) :
    ∀ acc : List Cond, (∀ g ∈ gs, groupAndTerms uid g ≠ []) →
      (gs.foldl
        (fun acc g =>
          match groupAndTerms uid g with
          | [] => acc
          | [c] => acc ++ [c]
          | c :: c2 :: rest => acc ++ [Cond.cAnd (c :: c2 :: rest)])
        acc).length = acc.length + gs.length := by
  induction gs with
  | nil => intro acc _; simp
  | cons g gs ih =>
    intro acc h
    simp only [List.foldl_cons]
    have hg := h g (List.mem_cons_self _ _)
    have hrest : ∀ g2 ∈ gs, groupAndTerms uid g2 ≠ [] :=
      fun g2 hg2 => h g2 (List.mem_cons_of_mem _ hg2)
    rcases hts : groupAndTerms uid g with _ | ⟨c, _ | ⟨c2, rest⟩⟩
    · exact absurd hts hg
    · rw [ih _ hrest]
      simp
      omega
    · rw [ih _ hrest]
      simp
      omega

theorem orCondsOfGroups_len (uid : Nat) (gs : List (List Str))
    (h : ∀ g ∈ gs, groupAndTerms uid g ≠ []) :
    (orCondsOfGroups uid gs).length = gs.length := by
  unfold orCondsOfGroups
  rw [orCondsOfGroups_fold_len uid gs [] h]
  simp

/-- C10: for every input text and exclusion set the keyword expression
returned by the extractor has no empty group and no duplicate term inside
a group, each group turns into exactly one AND term per keyword in the
group condition builder, and no group is dropped: the builder never forms
an AND over zero terms. -/
theorem keywordGroupsWellFormed (uid : Nat) (text : Str) (excl : List Str) :
    (∀ g ∈ nlExtractKeywordGroups text excl, g ≠ [] ∧ g.Nodup) ∧
    (∀ g ∈ nlExtractKeywordGroups text excl, (groupAndTerms uid g).length = g.length) ∧
    (orCondsOfGroups uid (nlExtractKeywordGroups text excl)).length =
      (nlExtractKeywordGroups text excl).length := by
  have hterms : ∀ g ∈ nlExtractKeywordGroups text excl, ∀ t ∈ g, pyStrip t ≠ [] := by
    intro g hg t ht
    rcases nlExtract_terms_ok text excl g hg t ht with ⟨hne, hws, _⟩
    rw [pyStrip_of_noWs t hws]
    exact hne
  have hlen : ∀ g ∈ nlExtractKeywordGroups text excl,
      (groupAndTerms uid g).length = g.length :=
    fun g hg => groupAndTerms_len uid g (hterms g hg)
  refine ⟨nlExtract_groups_wf text excl, hlen, ?_⟩
  refine orCondsOfGroups_len uid _ ?_
  intro g hg
  have h1 := hlen g hg
  have h2 := (nlExtract_groups_wf text excl g hg).1
  intro hc
  rw [hc] at h1
  simp at h1
  exact h2 (List.eq_nil_of_length_eq_zero h1.symm)

/-- C5: whenever the token stream contains no explicit AND marker, the
extractor flattens its result: every group of the returned expression is
a singleton, and a singleton group [t] is returned exactly for the terms
t that survived into the walked groups, however those groups were formed. -/
theorem noAndMeansSingletonGroups (text : Str) (excl : List Str)
    (h : toStr "__AND__" ∉ nlTokens text) :
    (∀ g ∈ nlExtractKeywordGroups text excl, ∃ t, g = [t]) ∧
    (∀ t, [t] ∈ nlExtractKeywordGroups text excl ↔
      ∃ g ∈ (nlCleanedGroups text excl).2, t ∈ g) := by
  have hflag : (nlCleanedGroups text excl).1 = false := by
    unfold nlCleanedGroups
    by_cases hraw : (nlTokens text).isEmpty = true
    · rw [if_pos hraw]
    · rw [if_neg hraw]
      exact nlWalk_and_flag _ _ false [] [] h
  by_cases h0 : text.isEmpty = true
  · have hdeg : nlExtractKeywordGroups text excl = [] := by
      unfold nlExtractKeywordGroups
      rw [if_pos h0]
    have hcl : (nlCleanedGroups text excl).2 = [] := by
      have htext : text = [] := List.isEmpty_iff.mp h0
      subst htext
      rfl
    constructor
    · intro g hg
      rw [hdeg] at hg
      simp at hg
    · intro t
      rw [hdeg, hcl]
      simp
  · by_cases h1 : (nlCleanedGroups text excl).2.isEmpty = true
    · have hdeg : nlExtractKeywordGroups text excl = [] := by
        unfold nlExtractKeywordGroups
        rw [if_neg h0, if_pos h1]
      have hcl : (nlCleanedGroups text excl).2 = [] := List.isEmpty_iff.mp h1
      constructor
      · intro g hg
        rw [hdeg] at hg
        simp at hg
      · intro t
        rw [hdeg, hcl]
        simp
    · have hmain : nlExtractKeywordGroups text excl =
          (flatTerms (nlCleanedGroups text excl).2).map (fun t => [t]) := by
        unfold nlExtractKeywordGroups
        rw [if_neg h0, if_neg h1, hflag]
        rfl
      constructor
      · intro g hg
        rw [hmain] at hg
        rcases List.mem_map.mp hg with ⟨t2, _, rfl⟩
        exact ⟨t2, rfl⟩
      · intro t
        rw [hmain]
        constructor
        · intro hmem
          rcases List.mem_map.mp hmem with ⟨a, ha, heq⟩
          have : a = t := by simpa using heq
          subst this
          rcases (flatTerms_mem _ _).mp ha with ⟨g0, hg0, ht0, _⟩
          exact ⟨g0, hg0, ht0⟩
        · rintro ⟨g0, hg0, ht0⟩
          have htne : t ≠ [] := by
            have := (nlCleaned_terms_ok text excl g0 hg0).2.2 t ht0
            exact this.1
          refine List.mem_map.mpr ⟨t, ?_, rfl⟩
          exact (flatTerms_mem _ _).mpr ⟨g0, hg0, ht0, htne⟩

/-- C5 witness: the query 日落 山 produces no AND marker, so the result
consists of singleton groups only. -/
theorem noAndMeansSingletonGroupsWitness :
    (toStr "__AND__" ∉ nlTokens (toStr "日落 山")) ∧
    (∀ g ∈ nlExtractKeywordGroups (toStr "日落 山") [], ∃ t, g = [t]) :=
  ⟨by decide, (noAndMeansSingletonGroups (toStr "日落 山") [] (by decide)).1⟩

/-- C6: a title extracted by the album extractor is consumed by the
structured album condition only: the clause builder removes it from the
vetted keyword list, and the keyword-group extractor, called with the
title in its exclusion set as the search route does, never returns it as
a term of any group. -/
theorem albumTitleNotDoubleCounted (query t : Str) (keywords : List Str)
    (hA : aiParseAlbum (normalizeQueryText query) = some t) :
    t ∉ clauseKeywords query keywords ∧
    ∀ g ∈ nlExtractKeywordGroups query [t], t ∉ g := by
  constructor
  · intro hmem
    simp only [clauseKeywords] at hmem
    rw [hA] at hmem
    by_cases ht : t.isEmpty = true
    · have h2 : optTruthy (some t) = false := by
        simp [optTruthy, ht]
      rw [h2] at hmem
      simp only [Bool.false_eq_true, if_false] at hmem
      exact (validKeywords_mem_prop keywords t hmem).2.2 (List.isEmpty_iff.mp ht)
    · have h2 : optTruthy (some t) = true := by
        simp [optTruthy]
        simpa using ht
      rw [h2] at hmem
      simp only [if_true] at hmem
      rcases List.mem_filter.mp hmem with ⟨hvk, hpred⟩
      have h3 := (validKeywords_mem_prop keywords t hvk).1
      simp only [Option.getD_some] at hpred
      rw [h3] at hpred
      simp at hpred
  · intro g hg ht
    rcases nlExtract_terms_ok query [t] g hg t ht with ⟨hne, hws, hnotex⟩
    apply hnotex
    unfold exclNorm
    simp [pyStrip_of_noWs t hws, hne]

/-- C6 witness: the query 名为"风景"的相册 extracts the album title 风景,
which then never reappears as a keyword term. -/
theorem albumTitleNotDoubleCountedWitness :
    (aiParseAlbum (normalizeQueryText (toStr "名为\"风景\"的相册")) = some (toStr "风景")) ∧
    ((toStr "风景") ∉ clauseKeywords (toStr "名为\"风景\"的相册") [toStr "风景"] ∧
      ∀ g ∈ nlExtractKeywordGroups (toStr "名为\"风景\"的相册") [toStr "风景"],
        (toStr "风景") ∉ g) :=
  ⟨by rfl, albumTitleNotDoubleCounted _ _ [toStr "风景"] (by rfl)⟩

/-- C9: any token whose lowercased stripped form contains one of the
structured-vocabulary words anywhere as a substring is classified as
noise, and consequently the clause builder vetting loop never lets such a
token survive as a keyword term. -/
theorem noiseVocabularySubstring :
    (∀ tok : Str,
        noiseSubstrList.any (fun k => containsSub (pyStrip (pyLower tok)) (toStr k)) = true →
        isNoiseKeyword tok = true) ∧
    (∀ keywords : List Str, ∀ kw ∈ validKeywords keywords,
        noiseSubstrList.any (fun k => containsSub (pyStrip (pyLower kw)) (toStr k)) = false) := by
  have part1 : ∀ tok : Str,
      noiseSubstrList.any (fun k => containsSub (pyStrip (pyLower tok)) (toStr k)) = true →
      isNoiseKeyword tok = true := by
    intro tok h
    simp only [isNoiseKeyword]
    split_ifs <;> rfl
  refine ⟨part1, ?_⟩
  intro keywords kw hkw
  have h2 := (validKeywords_mem_prop keywords kw hkw).2.1
  cases hany : noiseSubstrList.any (fun k => containsSub (pyStrip (pyLower kw)) (toStr k)) with
  | false => rfl
  | true =>
    have h3 := part1 kw hany
    rw [h2] at h3
    simp at h3

/-- C9 witness: the token 超大小猫 contains 大小 and is classified as
noise, and a clean keyword list keeps only non-noise terms. -/
theorem noiseVocabularySubstringWitness :
    (noiseSubstrList.any
        (fun k => containsSub (pyStrip (pyLower (toStr "超大小猫"))) (toStr k)) = true ∧
      isNoiseKeyword (toStr "超大小猫") = true) ∧
    ((toStr "日落") ∈ validKeywords [toStr "超大小猫", toStr "日落"] ∧
      noiseSubstrList.any
        (fun k => containsSub (pyStrip (pyLower (toStr "日落"))) (toStr k)) = false) :=
  ⟨⟨by decide, noiseVocabularySubstring.1 (toStr "超大小猫") (by decide)⟩,
   ⟨by decide, noiseVocabularySubstring.2 [toStr "超大小猫", toStr "日落"] (toStr "日落")
      (by decide)⟩⟩

/-- C3: for every positive byte value v parsed as an exact single size
(min = max = v), the clause builders widen the range to bounds lo le v le
hi, and the widening on each side is at least ten percent of v or at least
the fixed absolute tolerance of 500 KiB (500 * 1024 bytes). -/
theorem sizeExactValueWidened (v : Nat) (hv : 0 < v) :
    ∃ lo hi, widenSizeBounds (some v) (some v) = (some lo, some hi) ∧
      lo ≤ v ∧ v ≤ hi ∧
      (v ≤ 10 * (v - lo) ∨ 500 * 1024 ≤ v - lo) ∧
      (v ≤ 10 * (hi - v) ∨ 500 * 1024 ≤ hi - v) := by
  have hmax : 500 * 1024 ≤ max (pyTenth v) (500 * 1024) := Nat.le_max_right _ _
  refine ⟨v - max (pyTenth v) (500 * 1024), v + max (pyTenth v) (500 * 1024), ?_, ?_, ?_, ?_, ?_⟩
  · simp [widenSizeBounds]
  · omega
  · omega
  · omega
  · omega

/-- C3 witness: the widening at the concrete value 3 MiB. -/
theorem sizeExactValueWidenedWitness :
    0 < 3145728 ∧
    (∃ lo hi, widenSizeBounds (some 3145728) (some 3145728) = (some lo, some hi) ∧
      lo ≤ 3145728 ∧ 3145728 ≤ hi ∧
      (3145728 ≤ 10 * (3145728 - lo) ∨ 500 * 1024 ≤ 3145728 - lo) ∧
      (3145728 ≤ 10 * (hi - 3145728) ∨ 500 * 1024 ≤ hi - 3145728)) :=
  ⟨by decide, sizeExactValueWidened 3145728 (by decide)⟩

/-- C7: for the empty query string the compiler applies no
natural-language filter at all: the search route adds no condition and
keeps all of the caller's non-deleted entries, and the advanced-search
orchestrator builds no clause and returns the caller's full catalog. -/
theorem emptyQueryUnfiltered (uid : Nat) (catalog : List ImageRec) :
    searchImagesNLConds uid [] = [] ∧
    searchImagesFiltered uid [] catalog = queryUserImages uid catalog ∧
    aiAdvancedSearchPlan uid [] [] = SearchPlan.noFilter ∧
    aiAdvancedSearch uid [] [] none catalog = sortByCreatedDesc (queryUserImages uid catalog) :=
  ⟨rfl, rfl, rfl, rfl⟩

/- A one-entry catalog owned by user 1 and not deleted. -/
def cImg : ImageRec :=
  { id := 7, userId := 1, name := some (toStr "a.jpg"), description := none,
    originalName := some (toStr "a.jpg"), folder := none, tags := [], albums := [],
    aiCaption := none, aiLabels := none, camera := none, lens := none,
    size := some 100000, width := some 1000, height := some 800,
    createdAt := ⟨2024, 5, 1, 10, 0, 0, 0⟩, takenAt := none, deletedAt := none,
    isFeatured := false }

/-- C1: on the all-noise query 找 找 (both tokens are stopwords for every
classifier) the keyword route compiles the unconditionally false sentinel
Image.id = -1 and returns nothing, but _ai_advanced_search with an empty
hint list detects no OR connective, builds no clause, applies no filter,
and returns the caller's entire catalog instead of the empty result the
invariant requires. -/
theorem allNoiseQueryTwoPaths :
    isNoiseKeyword (toStr "找") = true ∧
    nlExtractKeywordGroups (toStr "找 找") [] = [] ∧
    heuristicKeywordsFromText (toStr "找 找") 6 = [] ∧
    searchImagesNLConds 1 (toStr "找 找") = [Cond.idEq (-1)] ∧
    searchImagesFiltered 1 (toStr "找 找") [cImg] = [] ∧
    aiAdvancedSearchPlan 1 (toStr "找 找") [] = SearchPlan.noFilter ∧
    aiAdvancedSearch 1 (toStr "找 找") [] (some 12) [cImg] = [cImg] :=
  ⟨rfl, rfl, rfl, rfl, rfl, rfl, rfl⟩

/- The predicate actually compiled for the query 4K 或者 日落. -/
def fourKActualCond : Cond :=
  Cond.cOr
    [Cond.cAnd [Cond.sizeGe 0, Cond.sizeLe 516096,
       Cond.pixelsGe 8294400, Cond.widthGe 3840, Cond.heightGe 2160],
     Cond.cOr [Cond.cOr [Cond.nameIlike (toStr "%日落%"), Cond.descIlike (toStr "%日落%"),
       Cond.origIlike (toStr "%日落%"), Cond.folderIlike (toStr "%日落%"),
       Cond.tagsAnyIlike (toStr "%日落%"), Cond.albumsAnyIlike 1 (toStr "%日落%"),
       Cond.aiCaptionIlike (toStr "%日落%"), Cond.aiLabelsIlike (toStr "%日落%")]]]

/- The predicate the claim describes: the first clause holding the
resolution lower bounds alone. -/
def fourKClaimedCond : Cond :=
  Cond.cOr
    [Cond.cAnd [Cond.pixelsGe 8294400, Cond.widthGe 3840, Cond.heightGe 2160],
     Cond.cOr [Cond.cOr [Cond.nameIlike (toStr "%日落%"), Cond.descIlike (toStr "%日落%"),
       Cond.origIlike (toStr "%日落%"), Cond.folderIlike (toStr "%日落%"),
       Cond.tagsAnyIlike (toStr "%日落%"), Cond.albumsAnyIlike 1 (toStr "%日落%"),
       Cond.aiCaptionIlike (toStr "%日落%"), Cond.aiLabelsIlike (toStr "%日落%")]]]

/-- C2 counterexample: for 4K 或者 日落 the compiled predicate is an OR of
two clauses, but the 4K clause additionally carries the byte-size range
conditions size ge 0 and size le 516096, because the size extractor reads
4K as four kilobytes; the clause is not the resolution condition alone. -/
theorem fourKOrSunsetHasSizeClause :
    aiAdvancedSearchPlan 1 (toStr "4K 或者 日落") [] = SearchPlan.withCond fourKActualCond ∧
    aiAdvancedSearchPlan 1 (toStr "4K 或者 日落") [] ≠ SearchPlan.withCond fourKClaimedCond := by
  have h1 : aiAdvancedSearchPlan 1 (toStr "4K 或者 日落") [] =
      SearchPlan.withCond fourKActualCond := rfl
  refine ⟨h1, ?_⟩
  intro h
  rw [h1] at h
  simp [fourKActualCond, fourKClaimedCond] at h

/- Helper lemmas for the date-range claims. -/

theorem aiParseDateRange_shape (text : Str) :
    aiParseDateRange text =
      (match (reFindAll dateTokenRx (normalizeQueryText text)).filterMap toDt with
       | d1 :: d2 :: _ =>
         (some (sortTwo d1 d2).1.atDayStart, some (sortTwo d1 d2).2.atDayEnd,
          dateFieldOf (normalizeQueryText text))
       | [d] => (some d.atDayStart, some d.atDayEnd, dateFieldOf (normalizeQueryText text))
       | [] => (none, none, dateFieldOf (normalizeQueryText text))) := rfl

theorem natListLt_asymm (a : List Nat) : ∀ b, natListLt a b = true → natListLt b a = false := by
  induction a with
  | nil =>
    intro b h
    cases b with
    | nil => simp [natListLt] at h
    | cons y ys => simp [natListLt]
  | cons x xs ih =>
    intro b h
    cases b with
    | nil => simp [natListLt] at h
    | cons y ys =>
      simp only [natListLt, Bool.or_eq_true, Bool.and_eq_true, beq_iff_eq,
        decide_eq_true_eq] at h
      simp only [natListLt, Bool.or_eq_false_iff, Bool.and_eq_false_iff,
        decide_eq_false_iff_not, beq_eq_false_iff_ne, ne_eq]
      rcases h with h | ⟨heq, hr⟩
      · exact ⟨by omega, Or.inl (by omega)⟩
      · exact ⟨by omega, Or.inr (ih ys hr)⟩

/-- C4: for every text whose date tokens parse to exactly two valid dates,
the extractor returns the chronologically earlier one at 00:00:00.000000
as the range start and the later one at 23:59:59.999999 as the range end,
independent of the order in which the two dates occur in the text. -/
theorem dateRangeTwoDatesSorted (text : Str) (d1 d2 : PyDateTime)
    (h : (reFindAll dateTokenRx (normalizeQueryText text)).filterMap toDt = [d1, d2]) :
    ∃ lo hi, ((lo = d1 ∧ hi = d2) ∨ (lo = d2 ∧ hi = d1)) ∧ dtLe lo hi = true ∧
      (aiParseDateRange text).1 = some lo.atDayStart ∧
      (aiParseDateRange text).2.1 = some hi.atDayEnd := by
  rw [aiParseDateRange_shape, h]
  by_cases hlt : dtLt d2 d1 = true
  · refine ⟨d2, d1, Or.inr ⟨rfl, rfl⟩, ?_, ?_, ?_⟩
    · have := natListLt_asymm d2.key d1.key hlt
      simp [dtLe, this]
    · simp [sortTwo, hlt]
    · simp [sortTwo, hlt]
  · refine ⟨d1, d2, Or.inl ⟨rfl, rfl⟩, ?_, ?_, ?_⟩
    · simp only [dtLt] at hlt
      simp [dtLe, Bool.not_eq_true] at hlt ⊢
      exact hlt
    · simp [sortTwo, hlt]
    · simp [sortTwo, hlt]

/-- C4 witness: the two dates of 2025-12-04 到 2025-01-02 appear in
reverse chronological order and come back sorted with day boundaries. -/
theorem dateRangeTwoDatesSortedWitness :
    ((reFindAll dateTokenRx (normalizeQueryText (toStr "2025-12-04 到 2025-01-02"))).filterMap toDt
       = [⟨2025, 12, 4, 0, 0, 0, 0⟩, ⟨2025, 1, 2, 0, 0, 0, 0⟩]) ∧
    (∃ lo hi,
      ((lo = (⟨2025, 12, 4, 0, 0, 0, 0⟩ : PyDateTime) ∧ hi = (⟨2025, 1, 2, 0, 0, 0, 0⟩ : PyDateTime)) ∨
        (lo = (⟨2025, 1, 2, 0, 0, 0, 0⟩ : PyDateTime) ∧ hi = (⟨2025, 12, 4, 0, 0, 0, 0⟩ : PyDateTime))) ∧
      dtLe lo hi = true ∧
      (aiParseDateRange (toStr "2025-12-04 到 2025-01-02")).1 = some lo.atDayStart ∧
      (aiParseDateRange (toStr "2025-12-04 到 2025-01-02")).2.1 = some hi.atDayEnd) :=
  ⟨by rfl, dateRangeTwoDatesSorted _ _ _ (by rfl)⟩

/- The total size chain is the non-raising restriction of the
   exception-aware one: wherever aiParseSizeE returns normally, the two
   models agree. -/

theorem pyIntFloatMul_ok (num : Str) (factor : Nat) (v : Nat)
    (h : pyIntFloatMul num factor = Except.ok v) :
    numTimesFactor num factor = some v := by
  unfold pyIntFloatMul at h
  unfold numTimesFactor
  rcases hs : num.splitOn '.' with _ | ⟨ip, _ | ⟨fp, _ | ⟨c, cs⟩⟩⟩ <;>
      simp only [hs] at h ⊢
  · exact absurd h (by simp)
  · rcases hip : pyInt ip with _ | i <;> simp only [hip] at h ⊢
    · exact absurd h (by simp)
    · by_cases hov : dblMaxNum < i * factor
      · rw [if_pos hov] at h
        exact absurd h (by simp)
      · rw [if_neg hov] at h
        simp only [Except.ok.injEq] at h
        simp [h]
  · rcases hip : pyInt ip with _ | i <;> rcases hfp : pyInt fp with _ | f <;>
        simp only [hip, hfp] at h ⊢
    · exact absurd h (by simp)
    · exact absurd h (by simp)
    · exact absurd h (by simp)
    · by_cases hov : dblMaxNum * 10 ^ fp.length < (i * 10 ^ fp.length + f) * factor
      · rw [if_pos hov] at h
        exact absurd h (by simp)
      · rw [if_neg hov] at h
        simp only [Except.ok.injEq] at h
        simp [h]
  · exact absurd h (by simp)

theorem toBytesE_ok (num : Str) (unit : Option Str) (o : Option Nat)
    (h : toBytesE num unit = Except.ok o) : toBytes num unit = o := by
  unfold toBytesE at h
  unfold toBytes
  rcases unit with _ | u
  · simp only [Except.ok.injEq] at h
    exact h
  · rcases hf : sizeUnitFactor u with _ | factor <;> simp only [hf] at h ⊢
    · simp only [Except.ok.injEq] at h
      exact h
    · rcases hp : pyIntFloatMul num factor with e | v <;> simp only [hp] at h
      · exact absurd h (by simp)
      · simp only [Except.ok.injEq] at h
        rw [pyIntFloatMul_ok num factor v hp]
        exact h

theorem aiParseSizeE_ok (text0 : Str) (r : Option Nat × Option Nat)
    (h : aiParseSizeE text0 = Except.ok r) : aiParseSize text0 = r := by
  simp only [aiParseSizeE] at h
  simp only [aiParseSize]
  by_cases h0 : text0.isEmpty = true
  · rw [if_pos h0] at h
    rw [if_pos h0]
    simp only [Except.ok.injEq] at h
    exact h
  · rw [if_neg h0] at h
    rw [if_neg h0]
    rcases hR : reSearch sizeRangeRx (reSub dateTokenRx (toStr " ") (normalizeQueryText text0)) with
        _ | mr <;> simp only [hR] at h ⊢
    · rcases hS : reSearch sizeSingleRx (reSub dateTokenRx (toStr " ") (normalizeQueryText text0)) with
          _ | m <;> simp only [hS] at h ⊢
      · simp only [Except.ok.injEq] at h
        exact h
      · rcases hT : toBytesE ((capGet m.caps 1).getD []) (capGet m.caps 2) with e | _ | v <;>
            simp only [hT] at h
        · exact absurd h (by simp)
        · rw [toBytesE_ok _ _ _ hT]
          simp only [Except.ok.injEq] at h
          exact h
        · rw [toBytesE_ok _ _ _ hT]
          split_ifs at h ⊢ <;> simp only [Except.ok.injEq] at h <;> exact h
    · by_cases hu : ((capGet mr.caps 2).isNone && (capGet mr.caps 4).isNone) = true
      · rw [if_pos hu] at h
        rw [if_pos hu]
        simp only [Except.ok.injEq] at h
        exact h
      · rw [if_neg hu] at h
        rw [if_neg hu]
        rcases hA : toBytesE ((capGet mr.caps 1).getD [])
            ((capGet mr.caps 2).orElse (fun _ => capGet mr.caps 4)) with e | mn <;>
            simp only [hA] at h
        · exact absurd h (by simp)
        · rcases hB : toBytesE ((capGet mr.caps 3).getD [])
              ((capGet mr.caps 4).orElse (fun _ => capGet mr.caps 2)) with e | mx <;>
              simp only [hB] at h
          · exact absurd h (by simp)
          · rw [toBytesE_ok _ _ _ hA, toBytesE_ok _ _ _ hB]
            rcases mn with _ | minB <;> rcases mx with _ | maxB <;>
                simp only [Except.ok.injEq] at h <;> exact h

set_option maxHeartbeats 1600000 in
/-- C8: refuted at the size extractor: _ai_parse_size guards nothing
around int(float(num) * factor), so a 310-digit numeral with a size unit
(here the range query 111...1kb-2mb, and likewise the single value
111...1kb, whose _to_bytes call is the second conjunct) drives float(num)
to inf and int raises OverflowError, which propagates out of the
extractor instead of its designated no-match (none, none); on ordinary
malformed input the extractors do return their no-match values (the
month-13 date token makes the datetime constructor raise, a raise the
date extractor catches into no-date, and arbitrary unparsable unicode
yields every extractor's no-match value). -/
theorem sizeExtractorOverflowRaises :
    aiParseSizeE (List.replicate 310 '1' ++ toStr "kb-2mb") = Except.error "OverflowError" ∧
    pyIntFloatMul (List.replicate 310 '1') 1024 = Except.error "OverflowError" ∧
    aiParseSizeE (toStr "4K") = Except.ok (some 4096, some 4096) ∧
    aiParseSizeE (toStr "☃☃ 乱码 ??") = Except.ok (none, none) ∧
    mkPyDatetime 2025 13 4 = Except.error "ValueError" ∧
    toDt (toStr "2025-13-04") = none ∧
    aiParseDateRange (toStr "2025-13-04") = (none, none, "created") ∧
    aiParseSize (toStr "☃☃ 乱码 ??") = (none, none) ∧
    aiParseResolution (toStr "☃☃ 乱码 ??") = ⟨none, none, none⟩ ∧
    aiParseAlbum (toStr "☃☃ 乱码 ??") = none ∧
    aiParseCameraKeyword (toStr "☃☃ 乱码 ??") = none :=
  ⟨rfl, rfl, rfl, rfl, rfl, rfl, rfl, rfl, rfl, rfl, rfl⟩

/-- C2 amended: for 4K 或者 日落 the compiled predicate is a top-level OR
of exactly two clauses; the first conjoins the size range obtained by
widening the 4-kilobyte reading of 4K (0 le size le 4096 + 500 KiB) with
the three resolution lower bounds 3840 x 2160, and the second is exactly
the keyword condition for the single term 日落. -/
theorem fourKOrSunsetCompiledShape :
    aiAdvancedSearchPlan 1 (toStr "4K 或者 日落") [] =
      SearchPlan.withCond (Cond.cOr
        [Cond.cAnd [Cond.sizeGe 0, Cond.sizeLe (4096 + 500 * 1024),
           Cond.pixelsGe (3840 * 2160), Cond.widthGe 3840, Cond.heightGe 2160],
         Cond.cOr [(keywordTermCondition 1 (toStr "日落")).getD (Cond.cAnd [])]]) := rfl

end Photory
